import Mathlib

/-!
Shallow embedding of the incremental documentation-indexing pipeline of the
Docs-Navigator repository: the SQLite-backed page cache (`CacheService`),
the change-detection service, and the indexing orchestrator
(`DocumentationService.indexSource` and friends).

Conventions of the embedding:
* The SQLite `pages` table is an association list `CacheDb` of rows keyed by
  URL; `cacheSet`/`cacheGet` transcribe `CacheService.set`/`CacheService.get`,
  including the JavaScript `x || null` falsiness coercions (`strVal`,
  `intVal`) applied by `set` and the fact that `get` returns the
  `last_checked` column under the camelCase name `lastChecked` (the
  `last_checked` property of the returned JS object is absent, i.e. `none`).
* Network, file-system and embedding collaborators are an explicit
  environment `RunEnv`: per-URL HEAD/GET responses (`HttpResult`, where
  `.err` is a transport error / axios rejection), the HTML body store
  (`saveHtml` returns `none` when `saveHtmlToCache` fails and returns null,
  `loadHtml` reads a stored path), the outcome of `VectorService.addDocument`
  (`embed`), the parsed sitemap, and the clock `now` (`Date.now()`).
* The SHA-256 digest is an abstract function `hash : String → String`;
  the only fact used about it is that a hex digest is a non-empty string.
-/

namespace DocsNav

/-- Models the JavaScript coercion `s || null` for nullable strings:
an empty string is falsy and becomes null. -/
def strVal : Option String → Option String
  | some s => if s = "" then none else some s
  | none => none

/-- Models the JavaScript coercion `n || null` for nullable numbers:
zero is falsy and becomes null. -/
def intVal : Option Int → Option Int
  | some n => if n = 0 then none else some n
  | none => none

/-- JavaScript truthiness of a nullable string (`if (x)`): null and the
empty string are falsy. -/
def strTruthy : Option String → Bool
  | some s => s ≠ ""
  | none => false

/-- JavaScript truthiness of a nullable number: null and 0 are falsy. -/
def intTruthy : Option Int → Bool
  | some n => n ≠ 0
  | none => false

/-- Models `a || b` on nullable strings (used for
`response.headers.etag || cached.etag`). -/
def strOrElse (a b : Option String) : Option String :=
  match strVal a with
  | some s => some s
  | none => b

/-- One row of the SQLite `pages` table created by `CacheService.createSchema`
(the `url` primary key is the association-list key, `created_at`/`updated_at`
are audit columns no claim mentions and are omitted). -/
structure PageRow where
  etag : Option String
  last_modified : Option String
  content_hash : Option String
  html_path : Option String
  last_checked : Option Int
  indexed : Bool
  source : Option String
deriving DecidableEq

/-- The `pages` table, keyed by URL. -/
abbrev CacheDb := List (String × PageRow)

/-- Row lookup by primary key (`SELECT * FROM pages WHERE url = ?`). -/
def dbLookup : CacheDb → String → Option PageRow
  | [], _ => none
  | (k, r) :: t, u => if k = u then some r else dbLookup t u

/-- Remove every row keyed `u` (helper for upsert). -/
def dbErase : CacheDb → String → CacheDb
  | [], _ => []
  | (k, r) :: t, u => if k = u then dbErase t u else (k, r) :: dbErase t u

/-- The JavaScript page object handed around `DocumentationService`:
the shape returned by `CacheService.get`, plus the snake_case
`last_checked` property that `indexSource` writes onto the object
(`cached.last_checked = Date.now()`), which is distinct from the
camelCase `lastChecked` property that `CacheService.set` reads back. -/
structure JsPage where
  url : String
  etag : Option String
  lastModified : Option String
  contentHash : Option String
  htmlPath : Option String
  lastChecked : Option Int
  last_checked : Option Int
  indexed : Bool
  source : Option String
deriving DecidableEq

/-- The row-to-object conversion shared by `CacheService.get`,
`getAllPages`, `getPagesBySource` and `entries`: the `last_checked` column
comes back as the camelCase `lastChecked`; the returned object has no
snake_case `last_checked` property. -/
def rowToJs (url : String) (row : PageRow) : JsPage :=
  { url := url
    etag := row.etag
    lastModified := row.last_modified
    contentHash := row.content_hash
    htmlPath := row.html_path
    lastChecked := row.last_checked
    last_checked := none
    indexed := row.indexed
    source := row.source }

/-- `CacheService.get(url)`. -/
def cacheGet (db : CacheDb) (url : String) : Option JsPage :=
  (dbLookup db url).map (rowToJs url)

/-- The row written by `CacheService.set(url, data)`: each nullable column is
`data.field || null` and `indexed` is `data.indexed ? 1 : 0`. The snake_case
`last_checked` property of the JS object is ignored (`set` reads
`data.lastChecked`). -/
def mkRow (d : JsPage) : PageRow :=
  { etag := strVal d.etag
    last_modified := strVal d.lastModified
    content_hash := strVal d.contentHash
    html_path := strVal d.htmlPath
    last_checked := intVal d.lastChecked
    indexed := d.indexed
    source := strVal d.source }

/-- `CacheService.set(url, data)`: atomic upsert of one row. -/
def cacheSet (db : CacheDb) (url : String) (d : JsPage) : CacheDb :=
  (url, mkRow d) :: dbErase db url

/-! ### Locks (`CacheService.acquireLock` / `releaseLock`) -/

/-- One row of the `locks` table. -/
structure LockRow where
  acquired_at : Int
  acquired_by : String
  expires_at : Int
deriving DecidableEq

abbrev LockDb := List (String × LockRow)

def lockLookup : LockDb → String → Option LockRow
  | [], _ => none
  | (k, r) :: t, u => if k = u then some r else lockLookup t u

def lockErase : LockDb → String → LockDb
  | [], _ => []
  | (k, r) :: t, u => if k = u then lockErase t u else (k, r) :: lockErase t u

def lockSet (db : LockDb) (name : String) (r : LockRow) : LockDb :=
  (name, r) :: lockErase db name

/-- Result of `CacheService.acquireLock`: `{acquired: true, lockId}` or
`{acquired: false, message, expiresIn}`. -/
inductive AcquireResult
  | acq (lockId : String)
  | denied (expiresIn : Int)
deriving DecidableEq

/-- `CacheService.acquireLock(lockName, timeoutSeconds)`, with the clock and
the generated holder token (`pid-Date.now()`) made explicit. The body runs
inside `this.db.transaction`, i.e. the read-check-write below is one atomic
step; two calls can therefore only be modelled as running one after the
other, never interleaved. An existing lock is taken over only when
`expires_at < now`; otherwise the caller is denied with
`expiresIn = expires_at - now`. -/
def acquireLock (locks : LockDb) (lockName : String) (now timeoutSeconds : Int)
    (acquiredBy : String) : AcquireResult × LockDb :=
  let expiresAt := now + timeoutSeconds
  match lockLookup locks lockName with
  | some existingLock =>
      if existingLock.expires_at < now then
        (.acq acquiredBy, lockSet locks lockName ⟨now, acquiredBy, expiresAt⟩)
      else
        (.denied (existingLock.expires_at - now), locks)
  | none =>
      (.acq acquiredBy, lockSet locks lockName ⟨now, acquiredBy, expiresAt⟩)

/-- `CacheService.releaseLock(lockName, lockId)`: deletes the row only when
the holder matches; returns whether a row was deleted. -/
def releaseLock (locks : LockDb) (lockName lockId : String) : Bool × LockDb :=
  match lockLookup locks lockName with
  | some row =>
      if row.acquired_by = lockId then (true, lockErase locks lockName)
      else (false, locks)
  | none => (false, locks)

/-! ### The collaborator environment of one indexing / detection run -/

/-- An HTTP response as `DocumentationService` consumes it: the status code
and the `etag` / `last-modified` headers plus the body. -/
structure HttpResp where
  status : Nat
  etag : Option String
  lastModified : Option String
  body : String
deriving DecidableEq

/-- Outcome of one axios call: a response, or a transport error
(timeout, DNS failure, or a status rejected by `validateStatus`,
all of which reach the `catch` block). Statuses that `validateStatus`
accepts are delivered as `.ok`. -/
inductive HttpResult
  | ok (r : HttpResp)
  | err
deriving DecidableEq

/-- One `<url>` element of a sitemap, after `discoverDocumentUrls` has read
`loc` and parsed `lastmod` (`new Date(lastmod).getTime()`; an absent or
empty `lastmod` is `none`). -/
structure SitemapEntry where
  loc : String
  lastmod : Option Int
deriving DecidableEq

/-- The external collaborators of one run, fixed per URL: HEAD and GET
responses, the HTML file cache (`saveHtml` is `saveHtmlToCache`, returning
`none` exactly when the write fails and the JS function returns null;
`loadHtml` is `loadHtmlFromCache`), whether `VectorService.addDocument`
(chunk + embed + store) succeeds for the document at a URL, the parsed
sitemap (`none` = sitemap fetch failed), and the clock `Date.now()`. -/
structure RunEnv where
  now : Int
  head : String → HttpResult
  get : String → HttpResult
  saveHtml : String → Option String
  loadHtml : String → Option String
  embed : String → Bool
  sitemap : Option (List SitemapEntry)

/-- The in-process page-cache statistics object `pageCacheStats`. -/
structure CacheStats where
  loaded : Nat
  hits304 : Nat
  hitsCached : Nat
  misses : Nat
  skipped : Nat
deriving DecidableEq

/-- How `fetchPageWithCache` obtained the HTML (its `status`/`fromCache`
result fields collapsed into one tag): a 304 reusing the cached body, a
fetched body whose hash matched the cache (`status: 'unchanged'`), fresh
content (`status: 200`), or the cached body reused after a transport error
(`status: 'error-fallback'`). -/
inductive FetchStatus
  | s304
  | unchangedHash
  | fresh
  | errFallback
deriving DecidableEq

/-- Successful result of `fetchPageWithCache`. -/
structure FetchOk where
  html : String
  fromCache : Bool
  status : FetchStatus
deriving DecidableEq

/-- `DocumentationService.fetchPageWithCache(url)`.

Transcribed branch by branch from the source; the error value carries the
statistics object as mutated before the throw (`hitsCached` is incremented
in the catch block before the cached HTML is read back, even if that read
then fails and the error is rethrown). `validateStatus` accepts
`status < 400 || status === 304`; anything else is an axios rejection and
lands in the catch block, which falls back to the cached body iff the
cached record has a truthy `htmlPath` whose file loads, and otherwise
throws. -/
def fetchFallback (env : RunEnv) (db : CacheDb) (st : CacheStats)
    (url : String) : Except CacheStats (FetchOk × CacheDb × CacheStats) :=
  match cacheGet db url with
  | some c =>
      if strTruthy c.htmlPath then
        let st1 := { st with hitsCached := st.hitsCached + 1 }
        match env.loadHtml (c.htmlPath.getD "") with
        | some html => .ok (⟨html, true, .errFallback⟩, db, st1)
        | none => .error st1
      else .error st
  | none => .error st

/-- The `// New or changed content` tail of `fetchPageWithCache`: save the
HTML (possibly failing, yielding a null `htmlPath`) and upsert the record.
The object literal written here has no `indexed`, `source` or `last_checked`
property, so `set` stores `indexed = 0` and `source = NULL`. -/
def freshWrite (hash : String → String) (env : RunEnv) (db : CacheDb)
    (url : String) (r : HttpResp) (st : CacheStats) :
    Except CacheStats (FetchOk × CacheDb × CacheStats) :=
  let htmlPath := env.saveHtml url
  let db1 := cacheSet db url
    { url := url
      etag := r.etag
      lastModified := r.lastModified
      contentHash := some (hash r.body)
      htmlPath := htmlPath
      lastChecked := some env.now
      last_checked := none
      indexed := false
      source := none }
  .ok (⟨r.body, false, .fresh⟩, db1, st)

/-- The `// Fresh fetch` part of `fetchPageWithCache`: count the miss,
hash the body; when the hash matches the cached record and the cached HTML
file loads, refresh metadata only and reuse the cached HTML
(`status: 'unchanged'`); otherwise fall through to `freshWrite`. -/
def fetchFresh (hash : String → String) (env : RunEnv) (db : CacheDb)
    (st : CacheStats) (url : String) (r : HttpResp) :
    Except CacheStats (FetchOk × CacheDb × CacheStats) :=
  let st2 := { st with misses := st.misses + 1 }
  match cacheGet db url with
  | some c =>
      if (c.contentHash == some (hash r.body)) && strTruthy c.htmlPath then
        let st3 := { st2 with hitsCached := st2.hitsCached + 1 }
        match env.loadHtml (c.htmlPath.getD "") with
        | some html =>
            let db1 := cacheSet db url
              { c with
                lastChecked := some env.now
                etag := strOrElse r.etag c.etag
                lastModified := strOrElse r.lastModified c.lastModified }
            .ok (⟨html, true, .unchangedHash⟩, db1, st3)
        | none => freshWrite hash env db url r st3
      else freshWrite hash env db url r st2
  | none => freshWrite hash env db url r st2

def fetchPageWithCache (hash : String → String) (env : RunEnv) (db : CacheDb)
    (st : CacheStats) (url : String) :
    Except CacheStats (FetchOk × CacheDb × CacheStats) :=
  match env.get url with
  | .err => fetchFallback env db st url
  | .ok r =>
      if ¬ (r.status < 400 ∨ r.status = 304) then fetchFallback env db st url
      else
        match cacheGet db url with
        | some c =>
            if r.status = 304 ∧ strTruthy c.htmlPath then
              let st1 := { st with hits304 := st.hits304 + 1 }
              match env.loadHtml (c.htmlPath.getD "") with
              | some html => .ok (⟨html, true, .s304⟩, db, st1)
              | none => fetchFresh hash env db st1 url r
            else fetchFresh hash env db st url r
        | none => fetchFresh hash env db st url r

/-! ### Discovery and pre-filter -/

/-- `bs` is a prefix of `l` (character lists). -/
def charPrefix : List Char → List Char → Bool
  | [], _ => true
  | _ :: _, [] => false
  | a :: as, b :: bs => a == b && charPrefix as bs

/-- `pat` occurs somewhere in `l`. -/
def charInfixOf (pat : List Char) : List Char → Bool
  | [] => pat.isEmpty
  | c :: rest => charPrefix pat (c :: rest) || charInfixOf pat rest

/-- `s.includes(pat)` of JavaScript. -/
def containsSub (s pat : String) : Bool :=
  charInfixOf pat.toList s.toList

/-- The sitemap URL filter of `discoverDocumentUrls`: keeps `loc` when it is
non-empty and none of the blog/archive/search/tags/authors fragments occur
in it. -/
def keepUrl (loc : String) : Bool :=
  loc != "" &&
  !(containsSub loc "/blog") &&
  !(containsSub loc "/archive") &&
  !(containsSub loc "/search") &&
  !(containsSub loc "/tags/") &&
  !(containsSub loc "/authors")

/-- A documentation source from `initializeSources`. -/
structure SourceDef where
  id : String
  baseUrl : String
deriving DecidableEq

/-- The `this.sources` map built by `initializeSources` (default base URLs). -/
def sourcesMap (sid : String) : Option SourceDef :=
  if sid = "suse" then some ⟨"suse", "https://documentation.suse.com"⟩
  else if sid = "rancher" then some ⟨"rancher", "https://ranchermanager.docs.rancher.com"⟩
  else if sid = "k3s" then some ⟨"k3s", "https://docs.k3s.io"⟩
  else if sid = "rke2" then some ⟨"rke2", "https://docs.rke2.io"⟩
  else if sid = "longhorn" then some ⟨"longhorn", "https://longhorn.io/docs"⟩
  else if sid = "harvester" then some ⟨"harvester", "https://docs.harvesterhci.io"⟩
  else if sid = "neuvector" then some ⟨"neuvector", "https://open-docs.neuvector.com"⟩
  else if sid = "kubewarden" then some ⟨"kubewarden", "https://docs.kubewarden.io"⟩
  else none

/-- `getFallbackUrls(source)`. -/
def getFallbackUrls (source : SourceDef) : List String :=
  if source.id = "suse" then
    [source.baseUrl ++ "/sles/15-SP5/", source.baseUrl ++ "/sle-micro/5.5/"]
  else if source.id = "rancher" then
    [source.baseUrl ++ "/getting-started/overview",
     source.baseUrl ++ "/how-to-guides/new-user-guides/kubernetes-clusters-in-rancher-setup/launch-kubernetes-with-rancher"]
  else if source.id = "k3s" then
    [source.baseUrl ++ "/", source.baseUrl ++ "/installation", source.baseUrl ++ "/architecture"]
  else if source.id = "rke2" then
    [source.baseUrl ++ "/install/quickstart", source.baseUrl ++ "/install/configuration",
     source.baseUrl ++ "/architecture", source.baseUrl ++ "/advanced"]
  else if source.id = "longhorn" then
    [source.baseUrl ++ "/latest/", source.baseUrl ++ "/latest/deploy/install/",
     source.baseUrl ++ "/latest/concepts/", source.baseUrl ++ "/latest/best-practices/"]
  else if source.id = "harvester" then
    [source.baseUrl ++ "/v1.3/", source.baseUrl ++ "/v1.3/install/requirements",
     source.baseUrl ++ "/v1.3/vm/create-vm"]
  else if source.id = "neuvector" then
    [source.baseUrl ++ "/basics/overview", source.baseUrl ++ "/deploying/kubernetes",
     source.baseUrl ++ "/navigation/multicluster"]
  else if source.id = "kubewarden" then
    [source.baseUrl ++ "/quick-start", source.baseUrl ++ "/writing-policies/",
     source.baseUrl ++ "/operator-manual/"]
  else []

/-- A candidate produced by discovery: `{url, lastmod}`. -/
structure CandidateUrl where
  url : String
  lastmod : Option Int
deriving DecidableEq

/-- The per-source candidate cap of `discoverDocumentUrls`
(`source.id === 'suse' ? 50 : 30`). -/
def discoveryLimit (source : SourceDef) : Nat :=
  if source.id = "suse" then 50 else 30

/-- The filtered sitemap candidates, in sitemap order. -/
def sitemapCandidates (entries : List SitemapEntry) : List CandidateUrl :=
  entries.filterMap fun e =>
    if keepUrl e.loc then some ⟨e.loc, e.lastmod⟩ else none

/-- `discoverDocumentUrls(source)`: parse the sitemap, filter out
blog/archive/search/tags/authors URLs, fall back to the static URL list when
the sitemap fetch fails or yields no valid URL, and cap the result with
`slice(0, limit)`. -/
def discoverDocumentUrls (env : RunEnv) (source : SourceDef) : List CandidateUrl :=
  let urlData : List CandidateUrl :=
    match env.sitemap with
    | some entries =>
        let fromSitemap := sitemapCandidates entries
        if fromSitemap.isEmpty then
          (getFallbackUrls source).map fun u => ⟨u, none⟩
        else fromSitemap
    | none => (getFallbackUrls source).map fun u => ⟨u, none⟩
  urlData.take (discoveryLimit source)

/-- `preFilterUrls(urlData, forceRefresh)`: under `forceRefresh` every URL is
processed; otherwise a candidate is dropped exactly when both its `lastmod`
and the cached object's `last_checked` property are truthy and
`lastmod <= cached.last_checked`. (The cached object comes from
`CacheService.get`, which returns the timestamp as `lastChecked` and has no
`last_checked` property.) -/
def preFilterUrls (db : CacheDb) (urlData : List CandidateUrl)
    (forceRefresh : Bool) : List String :=
  if forceRefresh then urlData.map (·.url)
  else
    urlData.filterMap fun item =>
      match cacheGet db item.url with
      | none => some item.url
      | some cached =>
          if intTruthy item.lastmod ∧ intTruthy cached.last_checked then
            if item.lastmod.getD 0 ≤ cached.last_checked.getD 0 then none
            else some item.url
          else some item.url

/-! ### Per-URL processing inside `indexSource` -/

/-- Outcome of processing one URL in an `indexSource` batch: indexed,
skipped-as-unchanged, or a rejected promise (counted by neither counter and
only logged). -/
inductive UrlResult
  | indexedDoc
  | skippedDoc
  | failedDoc
deriving DecidableEq

/-- `shouldSkipDocument(url, forceRefresh)`. -/
def shouldSkipDocument (db : CacheDb) (url : String) (forceRefresh : Bool) : Bool :=
  if forceRefresh then false
  else
    match cacheGet db url with
    | none => false
    | some cached => cached.indexed && strTruthy cached.contentHash

/-- The `if (cached && !cached.source) { cached.source = source.id; set }`
step at the top of the skip branch of the `batch.map` closure in
`indexSource`. -/
def sourceFix (db : CacheDb) (url sid : String) : CacheDb :=
  match cacheGet db url with
  | some cached =>
      if ¬ strTruthy cached.source then
        cacheSet db url { cached with source := some sid }
      else db
  | none => db

/-- The fetch → addDocument → mark-as-indexed tail of the per-URL closure:
`fetchDocumentation` (via `fetchPageWithCache`; the cheerio/turndown
extraction cannot change the cache and is irrelevant to the claims), then
`vectorService.addDocument`, then the write-back
(`cached.indexed = true; cached.source = source.id;
cached.last_checked = Date.now()` followed by `CacheService.set`, which
reads `lastChecked` and ignores the snake_case property). A thrown fetch or
a failed embed rejects the promise for this URL only. -/
def processFetchPath (hash : String → String) (env : RunEnv)
    (source : SourceDef) (db : CacheDb) (st : CacheStats) (url : String) :
    UrlResult × CacheDb × CacheStats :=
  match fetchPageWithCache hash env db st url with
  | .error st2 => (.failedDoc, db, st2)
  | .ok (_, db2, st2) =>
      if env.embed url then
        match cacheGet db2 url with
        | some cached =>
            (.indexedDoc,
             cacheSet db2 url
               { cached with
                 indexed := true
                 source := some source.id
                 last_checked := some env.now },
             st2)
        | none => (.indexedDoc, db2, st2)
      else (.failedDoc, db2, st2)

def processUrl (hash : String → String) (env : RunEnv) (source : SourceDef)
    (forceRefresh : Bool) (db : CacheDb) (st : CacheStats) (url : String) :
    UrlResult × CacheDb × CacheStats :=
  if shouldSkipDocument db url forceRefresh then
    let db1 := sourceFix db url source.id
    match env.head url with
    | .ok r =>
        if r.status < 400 ∨ r.status = 304 then
          if r.status = 304 then
            (.skippedDoc, db1, { st with skipped := st.skipped + 1 })
          else processFetchPath hash env source db1 st url
        else processFetchPath hash env source db1 st url
    | .err => processFetchPath hash env source db1 st url
  else processFetchPath hash env source db st url

/-- The `indexed` / `skipped` counters of `indexSource`, plus the number of
rejected promises (failures are only logged by the source, never returned;
the model keeps the count so that claims can speak about failed
resources). -/
structure RunCounts where
  indexed : Nat
  skipped : Nat
  failed : Nat
deriving DecidableEq

/-- Sequential processing of the surviving URLs. Batching
(`Promise.allSettled` over `BATCH_SIZE` slices with an inter-batch delay)
only affects scheduling of network calls; every cache mutation goes through
the synchronous SQLite `set`, so the per-URL effects compose
sequentially. -/
def processUrls (hash : String → String) (env : RunEnv) (source : SourceDef)
    (forceRefresh : Bool) : CacheDb → CacheStats → List String →
    RunCounts × CacheDb × CacheStats
  | db, st, [] => ((⟨0, 0, 0⟩ : RunCounts), db, st)
  | db, st, url :: rest =>
      let (r, db1, st1) := processUrl hash env source forceRefresh db st url
      let (c, db2, st2) := processUrls hash env source forceRefresh db1 st1 rest
      (match r with
       | .indexedDoc => { c with indexed := c.indexed + 1 }
       | .skippedDoc => { c with skipped := c.skipped + 1 }
       | .failedDoc => { c with failed := c.failed + 1 },
       db2, st2)

/-- `indexSource(source, forceRefresh)`: discovery, pre-filter, batched
processing. The JS function returns only the `indexed` counter; the model
returns all counters together with the final cache and statistics. -/
def indexSource (hash : String → String) (env : RunEnv) (source : SourceDef)
    (forceRefresh : Bool) (db : CacheDb) (st : CacheStats) :
    RunCounts × CacheDb × CacheStats :=
  let urlData := discoverDocumentUrls env source
  let documentUrls := preFilterUrls db urlData forceRefresh
  processUrls hash env source forceRefresh db st documentUrls

/-! ### The run report of `indexDocumentation` -/

/-- The object `indexDocumentation` returns: `{success, documentsIndexed,
error, cacheStats}`. `stats` is the page part of `cacheStats`
(`getPageCacheStats()`, i.e. the counters plus `totalCached`, the row count
of the `pages` table); it is `none` on the early `Invalid source ID` return,
which carries no `cacheStats` property. The embedding-cache half of
`cacheStats` involves no claim and is omitted. -/
structure IndexReport where
  success : Bool
  documentsIndexed : Nat
  error : Option String
  stats : Option (CacheStats × Nat)
deriving DecidableEq

/-- `resetPageCacheStats()`: resets `hits304`, `hitsCached` and `misses`
but neither `skipped` nor `loaded`. -/
def resetPageCacheStats (st : CacheStats) : CacheStats :=
  { st with hits304 := 0, hitsCached := 0, misses := 0 }

/-- `indexDocumentation(sourceId, forceRefresh)` for a single named source
(the `'all'` loop just folds this over every source): an unknown id returns
`{success: false, documentsIndexed: 0, error: 'Invalid source ID'}` before
the statistics are reset; otherwise the statistics are reset, `indexSource`
runs (it catches every per-resource failure internally, so the per-source
`try` never records an error for it), and the report carries
`success: errors.length === 0`, the `indexed` count, and the page cache
statistics. -/
def indexDocumentation (hash : String → String) (env : RunEnv)
    (sourceId : String) (forceRefresh : Bool) (db : CacheDb) (st : CacheStats) :
    IndexReport × CacheDb :=
  match sourcesMap sourceId with
  | none => (⟨false, 0, some "Invalid source ID", none⟩, db)
  | some source =>
      let st0 := resetPageCacheStats st
      let (counts, db1, st1) := indexSource hash env source forceRefresh db st0
      (⟨true, counts.indexed, none, some (st1, db1.length)⟩, db1)

/-! ### Change-detection service -/

/-- The `method` field of an unchanged result of `checkUrlForChanges`. -/
inductive DetectMethod
  | viaEtag
  | viaLastModified
  | viaContentHash
deriving DecidableEq

/-- Result of `checkUrlForChanges`: `status: 'new' | 'unchanged' | 'changed'
| 'error'` with the fields each status carries. -/
inductive CheckResult
  | newDoc
  | unchangedDoc (method : DetectMethod)
  | changedDoc (oldHash : Option String) (newHash : String)
      (etag lastModified : Option String)
  | errorDoc
deriving DecidableEq

/-- `ChangeDetectionService.checkUrlForChanges(url)`.

`parseDate` abstracts `new Date(s).getTime()`. Both axios calls use
`validateStatus: status < 500`, so a 5xx is a rejection; any rejection
reaches the catch block, which returns `status: 'error'`. The checks run in
source order: cache miss first, then the ETag comparison (only when both
the cached and the response header are truthy), then Last-Modified (only
when both are truthy, unchanged when the server time is not newer), then
the full GET with the content-hash comparison. -/
def checkUrlForChanges (hash : String → String) (parseDate : String → Int)
    (env : RunEnv) (db : CacheDb) (url : String) : CheckResult :=
  match cacheGet db url with
  | none => .newDoc
  | some cachedPage =>
      match env.head url with
      | .err => .errorDoc
      | .ok headResponse =>
          if ¬ headResponse.status < 500 then .errorDoc
          else
            let etagUnchanged : Bool :=
              strTruthy cachedPage.etag && strTruthy headResponse.etag &&
              (cachedPage.etag == headResponse.etag)
            if etagUnchanged then .unchangedDoc .viaEtag
            else
              let lastModUnchanged : Bool :=
                strTruthy cachedPage.lastModified &&
                strTruthy headResponse.lastModified &&
                decide (parseDate (headResponse.lastModified.getD "") ≤
                        parseDate (cachedPage.lastModified.getD ""))
              if lastModUnchanged then .unchangedDoc .viaLastModified
              else
                match env.get url with
                | .err => .errorDoc
                | .ok getResponse =>
                    if ¬ getResponse.status < 500 then .errorDoc
                    else
                      let contentHash := hash getResponse.body
                      if cachedPage.contentHash == some contentHash then
                        .unchangedDoc .viaContentHash
                      else
                        .changedDoc cachedPage.contentHash contentHash
                          getResponse.etag getResponse.lastModified

/-- The method names the `CacheService` class actually defines
(`cache-service.js`). `checkSourceForChanges` and `getStatistics` call
`getBySource` and `getAll`, which are not among them. -/
def cacheServiceMethodNames : List String :=
  ["initialize", "createSchema", "get", "set", "delete", "has",
   "getAllPages", "getPagesBySource", "getStats", "clear",
   "getOutdatedPages", "bulkSet", "close", "entries", "queryPages",
   "getModifiedSince", "getPagesByStatus", "generateAnalyticsReport",
   "acquireLock", "releaseLock", "cleanupExpiredLocks"]

/-- Per-status tallies of `checkSourceForChanges` (the result object keeps
the full per-URL results; the tallies determine everything the claims
need). -/
structure CheckSummary where
  totalChecked : Nat
  changedCount : Nat
  unchangedCount : Nat
  errorCount : Nat
  newCount : Nat
deriving DecidableEq

/-- `CacheService.getPagesBySource(source)`:
`SELECT * FROM pages WHERE source = ?` (SQL equality — a NULL `source`
never matches), each row converted exactly as in `get`. -/
def getPagesBySource (db : CacheDb) (source : String) : List JsPage :=
  db.filterMap fun p =>
    if p.2.source = some source then some (rowToJs p.1 p.2) else none

/-- Classify one check result into the summary tallies. -/
def tally (acc : CheckSummary) : CheckResult → CheckSummary
  | .changedDoc _ _ _ _ => { acc with changedCount := acc.changedCount + 1 }
  | .unchangedDoc _ => { acc with unchangedCount := acc.unchangedCount + 1 }
  | .errorDoc => { acc with errorCount := acc.errorCount + 1 }
  | .newDoc => { acc with newCount := acc.newCount + 1 }

/-- The final write-back loop of `checkSourceForChanges`
(`pages.forEach(page => set(page.url, { ...page, lastChecked: now }))`):
it runs over every selected page unconditionally — the per-page check
results, including errors, play no part in it. -/
def writeBack (db : CacheDb) (now : Int) (pages : List JsPage) : CacheDb :=
  pages.foldl
    (fun acc page => cacheSet acc page.url { page with lastChecked := some now })
    db

/-- The body of `checkSourceForChanges` from the page-selection on, with the
missing `getBySource` replaced by the `getPagesBySource` method the store
does define (the evident intent; see `checkSourceForChanges` below for the
faithful entry point). Default options: no `limit`, no `olderThanDays`.
After all checks settle, every selected page is written back as
`set(page.url, { ...page, lastChecked: now })`. -/
def checkSourceForChangesBody (hash : String → String)
    (parseDate : String → Int) (env : RunEnv) (db : CacheDb)
    (source : String) : CheckSummary × CacheDb :=
  let pages := getPagesBySource db source
  let results := pages.map fun page =>
    checkUrlForChanges hash parseDate env db page.url
  let summary := results.foldl tally ⟨pages.length, 0, 0, 0, 0⟩
  (summary, writeBack db env.now pages)

/-- `ChangeDetectionService.checkSourceForChanges(source)` as written: its
first statement is `this.cacheService.getBySource(source)`, but the
`CacheService` instance has no such method, so with the default cache
service the call throws `TypeError: this.cacheService.getBySource is not a
function` before any page is selected or checked. -/
def checkSourceForChanges (hash : String → String) (parseDate : String → Int)
    (env : RunEnv) (db : CacheDb) (source : String) :
    Except String (CheckSummary × CacheDb) :=
  if "getBySource" ∈ cacheServiceMethodNames then
    .ok (checkSourceForChangesBody hash parseDate env db source)
  else
    .error "TypeError: this.cacheService.getBySource is not a function"

/-! ### Embedding retry (`AIService.getOrCreateEmbedding`) -/

/-- Outcome of one call to the embedding collaborator
(`ollamaClient.embeddings` / `openaiClient.embeddings.create`): a vector, a
transient failure, or the non-retriable validation error whose message
contains `not supported`. -/
inductive EmbedAttempt
  | attemptOk (emb : List Int)
  | transientErr
  | notSupportedErr
deriving DecidableEq

/-- Result of `getOrCreateEmbedding`: a cache hit, a success after some
attempts (with the backoff delays slept between attempts, in order), the
final error after every retry failed, or the immediate validation
rethrow. -/
inductive EmbedResult
  | cachedHit (emb : List Int)
  | embedOk (emb : List Int) (attempts : Nat) (delays : List Nat)
  | failedAll (attempts : Nat) (delays : List Nat)
  | notSupported (attempts : Nat)
deriving DecidableEq

/-- The retry loop of `getOrCreateEmbedding`
(`for (attempt = 0; attempt < retries; attempt++)`): a transient failure at
`attempt < retries - 1` sleeps `2^attempt * 500` ms and retries; a
validation error is rethrown at once; exhausting the loop throws the final
error. `fuel` counts the attempts remaining (`retries - attempt`). -/
def embedLoop (oracle : Nat → EmbedAttempt) (retries : Nat) :
    Nat → Nat → List Nat → EmbedResult
  | 0, attempt, delays => .failedAll attempt delays.reverse
  | fuel + 1, attempt, delays =>
      match oracle attempt with
      | .attemptOk e => .embedOk e (attempt + 1) delays.reverse
      | .notSupportedErr => .notSupported (attempt + 1)
      | .transientErr =>
          if attempt < retries - 1 then
            embedLoop oracle retries fuel (attempt + 1)
              (2 ^ attempt * 500 :: delays)
          else
            embedLoop oracle retries fuel (attempt + 1) delays

/-- `AIService.getOrCreateEmbedding(text, retries = 3)`: the embedding cache
is keyed by the SHA-256 of the text (`key` here is that digest); a hit
returns the cached vector, a miss runs the bounded retry loop and caches
the vector on success. -/
def getOrCreateEmbedding (cache : List (String × List Int)) (key : String)
    (oracle : Nat → EmbedAttempt) (retries : Nat) :
    EmbedResult × List (String × List Int) :=
  match List.lookup key cache with
  | some e => (.cachedHit e, cache)
  | none =>
      match embedLoop oracle retries retries 0 [] with
      | .embedOk e a d => (.embedOk e a d, (key, e) :: cache)
      | r => (r, cache)

/-! ### Invariants and predicates the claims speak about -/

/-- The per-record invariant of claim C1, as it actually holds of every row
this pipeline writes: the `content_hash` column is a non-null, non-empty
string, and an indexed row also has a non-null, non-empty `html_path`
(bodyRef). -/
def RowInv (row : PageRow) : Prop :=
  strTruthy row.content_hash = true ∧
  (row.indexed = true → strTruthy row.html_path = true)

/-- `RowInv` for every row of the table. -/
def DbInv (db : CacheDb) : Prop :=
  ∀ url row, dbLookup db url = some row → RowInv row

/-- The table has an indexed row for `u`. -/
def IndexedAt (db : CacheDb) (u : String) : Prop :=
  ∃ row, dbLookup db u = some row ∧ row.indexed = true

/-- The record state that makes `shouldSkipDocument` answer true on a
non-forced run: an indexed row with a truthy content hash. -/
def SkipOk (db : CacheDb) (u : String) : Prop :=
  ∃ row, dbLookup db u = some row ∧ row.indexed = true ∧
    strTruthy row.content_hash = true

/-- A row whose nullable columns are in the normal form `CacheService.set`
produces (never the empty string, which `set` would coerce to NULL). Rows
written by `set` always satisfy this, since `set` applies `x || null`. -/
def RowNormal (row : PageRow) : Prop :=
  strVal row.etag = row.etag ∧
  strVal row.last_modified = row.last_modified ∧
  strVal row.content_hash = row.content_hash ∧
  strVal row.html_path = row.html_path ∧
  strVal row.source = row.source

instance (row : PageRow) : Decidable (RowNormal row) := by
  unfold RowNormal
  infer_instance

/-! ### Concrete instances used by counterexamples and witnesses -/

/-- A stand-in for the SHA-256 hex digest: any function into non-empty
strings; concrete evaluations use this one. -/
def hashC : String → String := fun s => "h" ++ s

def k3sSrc : SourceDef := ⟨"k3s", "https://docs.k3s.io"⟩

def stZero : CacheStats := ⟨0, 0, 0, 0, 0⟩

/-- Environment for the C1 counterexample: one sitemap URL `u`, a fresh 200
body, the embed-and-store succeeding, but `saveHtmlToCache` failing (it
returns null). -/
def envC1 : RunEnv :=
  { now := 1000
    head := fun _ => .err
    get := fun u => if u = "u" then .ok ⟨200, none, none, "B"⟩ else .err
    saveHtml := fun _ => none
    loadHtml := fun _ => none
    embed := fun _ => true
    sitemap := some [⟨"u", none⟩] }

/-- Environment for the C3 counterexample: a server that never emits
validators and answers every HEAD and GET with a plain 200, the body never
changing; the HTML file cache and the embed-and-store work. -/
def envC3 : RunEnv :=
  { now := 1000
    head := fun _ => .ok ⟨200, none, none, ""⟩
    get := fun _ => .ok ⟨200, none, none, "B"⟩
    saveHtml := fun _ => some "p"
    loadHtml := fun p => if p = "p" then some "B" else none
    embed := fun _ => true
    sitemap := some [⟨"u", none⟩] }

/-- Witness environment for the amended C3: the single candidate is already
indexed and the server answers the verification HEAD with 304. -/
def envC3w : RunEnv :=
  { now := 1000
    head := fun _ => .ok ⟨304, none, none, ""⟩
    get := fun _ => .err
    saveHtml := fun _ => some "p"
    loadHtml := fun _ => none
    embed := fun _ => false
    sitemap := some [⟨"u", none⟩] }

/-- Cache state for the amended-C3 witness: `u` indexed with a content hash
and a stored body. -/
def dbC3w : CacheDb :=
  [("u", ⟨none, none, some "hB", some "p", some 5, true, some "k3s"⟩)]

/-- Cache row for the C5 counterexample: an ETag validator is cached but
`html_path` is NULL (as happens when `saveHtmlToCache` failed on the
original fetch). -/
def rowC5 : PageRow := ⟨some "e", none, some "hB", none, some 5, false, none⟩

def dbC5 : CacheDb := [("u", rowC5)]

/-- Environment for the C5 counterexample: the GET for `u` fails with a
transport error. -/
def envC5 : RunEnv :=
  { now := 1000
    head := fun _ => .err
    get := fun _ => .err
    saveHtml := fun _ => none
    loadHtml := fun _ => none
    embed := fun _ => false
    sitemap := some [⟨"u", none⟩] }

/-- Environment A for the C6 counterexample: two candidates, `u` failing
with a transport error on an empty cache (a hard per-resource failure) and
`v` indexing normally. -/
def envC6a : RunEnv :=
  { now := 1000
    head := fun _ => .err
    get := fun u => if u = "u" then .err else .ok ⟨200, none, none, "B"⟩
    saveHtml := fun _ => some "p"
    loadHtml := fun _ => none
    embed := fun _ => true
    sitemap := some [⟨"u", none⟩, ⟨"v", none⟩] }

/-- Environment B for the C6 counterexample: a single candidate `w`
indexing normally and nothing failing. -/
def envC6b : RunEnv :=
  { now := 1000
    head := fun _ => .err
    get := fun _ => .ok ⟨200, none, none, "B"⟩
    saveHtml := fun _ => some "p"
    loadHtml := fun _ => none
    embed := fun _ => true
    sitemap := some [⟨"w", none⟩] }

/-- Environment for the C7 run-continuation conjunct: the embed-and-store
fails for `u` after all retries and succeeds for `v`. -/
def envC7 : RunEnv :=
  { now := 1000
    head := fun _ => .err
    get := fun _ => .ok ⟨200, none, none, "B"⟩
    saveHtml := fun _ => some "p"
    loadHtml := fun _ => none
    embed := fun u => u != "u"
    sitemap := some [⟨"u", none⟩, ⟨"v", none⟩] }

/-- Cache state for the C8 witness: a record with a content hash and no
validators. -/
def dbC8 : CacheDb :=
  [("u", ⟨none, none, some "hB", some "p", some 5, true, some "k3s"⟩)]

/-- Environment for the C8 witness: HEAD and GET succeed with 200 and no
validator headers; the body hashes to the cached hash. -/
def envC8 : RunEnv :=
  { now := 1000
    head := fun _ => .ok ⟨200, none, none, ""⟩
    get := fun _ => .ok ⟨200, none, none, "B"⟩
    saveHtml := fun _ => none
    loadHtml := fun _ => none
    embed := fun _ => false
    sitemap := none }

/-- Cache state for the C9 witness: one k3s row and one rancher row, both
in `set`-normal form. -/
def dbC9 : CacheDb :=
  [("u", ⟨some "e", none, some "hB", some "p", some 5, true, some "k3s"⟩),
   ("v", ⟨none, none, some "hC", some "q", some 7, false, some "rancher"⟩)]

/-- Environment for the C9 witness: every check ends in a transport error,
showing the write-back happens regardless. -/
def envC9 : RunEnv :=
  { now := 1000
    head := fun _ => .err
    get := fun _ => .err
    saveHtml := fun _ => none
    loadHtml := fun _ => none
    embed := fun _ => false
    sitemap := none }

/-! ## Basic lemmas about the store embedding -/

theorem strTruthy_strVal (o : Option String) : strTruthy (strVal o) = strTruthy o := by
  cases o with
  | none => rfl
  | some s =>
      by_cases h : s = "" <;> simp [strVal, strTruthy, h]

theorem dbLookup_erase (db : CacheDb) (u v : String) :
    dbLookup (dbErase db u) v = if v = u then none else dbLookup db v := by
  induction db with
  | nil => simp [dbErase, dbLookup]
  | cons p t ih =>
      obtain ⟨k, r⟩ := p
      simp only [dbErase]
      by_cases hk : k = u
      · rw [if_pos hk, ih]
        subst hk
        by_cases hv : v = k
        · simp [hv]
        · have hkv : k ≠ v := fun h => hv h.symm
          simp [dbLookup, hv, hkv]
      · rw [if_neg hk]
        simp only [dbLookup]
        by_cases hkv : k = v
        · subst hkv
          have hvu : k ≠ u := hk
          simp [dbLookup, hvu]
        · rw [if_neg hkv, ih]
          by_cases hvu : v = u <;> simp [hvu, dbLookup, hkv]

theorem dbLookup_cacheSet_self (db : CacheDb) (u : String) (d : JsPage) :
    dbLookup (cacheSet db u d) u = some (mkRow d) := by
  simp [cacheSet, dbLookup]

theorem dbLookup_cacheSet_ne (db : CacheDb) (u v : String) (d : JsPage)
    (h : v ≠ u) : dbLookup (cacheSet db u d) v = dbLookup db v := by
  have h' : u ≠ v := fun hh => h hh.symm
  simp [cacheSet, dbLookup, h', dbLookup_erase, h]

theorem cacheGet_eq_some (db : CacheDb) (u : String) (row : PageRow)
    (h : dbLookup db u = some row) : cacheGet db u = some (rowToJs u row) := by
  simp [cacheGet, h]

theorem cacheGet_eq_none (db : CacheDb) (u : String)
    (h : dbLookup db u = none) : cacheGet db u = none := by
  simp [cacheGet, h]

theorem lockLookup_lockErase (db : LockDb) (u v : String) :
    lockLookup (lockErase db u) v = if v = u then none else lockLookup db v := by
  induction db with
  | nil => simp [lockErase, lockLookup]
  | cons p t ih =>
      obtain ⟨k, r⟩ := p
      simp only [lockErase]
      by_cases hk : k = u
      · rw [if_pos hk, ih]
        subst hk
        by_cases hv : v = k
        · simp [hv]
        · have hkv : k ≠ v := fun h => hv h.symm
          simp [lockLookup, hv, hkv]
      · rw [if_neg hk]
        simp only [lockLookup]
        by_cases hkv : k = v
        · subst hkv
          have hvu : k ≠ u := hk
          simp [lockLookup, hvu]
        · rw [if_neg hkv, ih]
          by_cases hvu : v = u <;> simp [hvu, lockLookup, hkv]

theorem lockLookup_lockSet_self (db : LockDb) (n : String) (r : LockRow) :
    lockLookup (lockSet db n r) n = some r := by
  simp [lockSet, lockLookup]

/-! ## C2: lease exclusivity and atomicity of `acquireLock` -/

/-- Claim C2. `acquireLock` runs its read-check-write as one
`better-sqlite3` transaction, so two contending calls execute one after the
other against the same `locks` table; modelled this way, for any starting
table in which no unexpired lease for `name` exists (no row, or only a row
with `expires_at < now`), two calls for the same `name` at the same instant
from different holders resolve with exactly one grant: the first caller is
granted, and the second receives `acquired: false` with
`expiresIn = ttl > 0`. The interleaving in which both callers observe "no
lease" and both insert cannot be expressed at all, because the transaction
boundary makes each call a single atomic step of the model. -/
theorem C2_lease_exclusivity (locks : LockDb) (name : String) (now ttl : Int)
    (h1 h2 : String) (_hne : h1 ≠ h2) (httl : 0 < ttl)
    (hfree : ∀ row, lockLookup locks name = some row → row.expires_at < now) :
    (acquireLock locks name now ttl h1).1 = .acq h1 ∧
    (acquireLock (acquireLock locks name now ttl h1).2 name now ttl h2).1 =
      .denied ttl ∧
    0 < ttl := by
  have hsecond : ∀ l : LockDb,
      lockLookup l name = some ⟨now, h1, now + ttl⟩ →
      (acquireLock l name now ttl h2).1 = .denied ttl := by
    intro l hl
    have hexp : ¬ ((⟨now, h1, now + ttl⟩ : LockRow).expires_at < now) := by
      simp only [LockRow.mk.injEq]
      omega
    simp [acquireLock, hl, hexp]
  cases hx : lockLookup locks name with
  | none =>
      have h1g : acquireLock locks name now ttl h1 =
          (.acq h1, lockSet locks name ⟨now, h1, now + ttl⟩) := by
        simp [acquireLock, hx]
      refine ⟨by rw [h1g], ?_, httl⟩
      rw [h1g]
      exact hsecond _ (lockLookup_lockSet_self _ _ _)
  | some row =>
      have hexp := hfree row hx
      have h1g : acquireLock locks name now ttl h1 =
          (.acq h1, lockSet locks name ⟨now, h1, now + ttl⟩) := by
        simp [acquireLock, hx, hexp]
      refine ⟨by rw [h1g], ?_, httl⟩
      rw [h1g]
      exact hsecond _ (lockLookup_lockSet_self _ _ _)

/-- Witness for C2 at a concrete instance: empty lock table, `ttl = 300`,
holders `a` and `b` at `now = 100`. -/
theorem C2_lease_exclusivity_witness :
    (acquireLock [] "suse" 100 300 "a").1 = .acq "a" ∧
    (acquireLock (acquireLock [] "suse" 100 300 "a").2 "suse" 100 300 "b").1 =
      .denied 300 ∧
    (0 : Int) < 300 :=
  C2_lease_exclusivity [] "suse" 100 300 "a" "b" (by decide) (by decide)
    (fun row h => by simp [lockLookup] at h)

/-! ## C4: the lastmod pre-filter -/

/-- Claim C4 (code bug). The pre-filter of a non-forced run excludes
*nothing*, ever: `preFilterUrls` tests `cached.last_checked`, but the
cached object comes from `CacheService.get`, which returns the
`last_checked` column under the camelCase name `lastChecked` and leaves the
snake_case property unset, so the guard `lastmod && cached.last_checked` is
always falsy and every candidate survives — including one whose sitemap
`lastmod` is strictly older than the stored last-check timestamp, which the
claim (and the code's own comments) say is skipped without being fetched. -/
theorem C4_prefilter_excludes_nothing (db : CacheDb)
    (urlData : List CandidateUrl) :
    preFilterUrls db urlData false = urlData.map (·.url) := by
  induction urlData with
  | nil => rfl
  | cons item rest ih =>
      have hitem : ∀ c : JsPage, cacheGet db item.url = some c →
          intTruthy c.last_checked = false := by
        intro c hc
        cases hd : dbLookup db item.url with
        | none => rw [cacheGet_eq_none db item.url hd] at hc; cases hc
        | some row =>
            rw [cacheGet_eq_some db item.url row hd] at hc
            cases hc
            rfl
      simp only [preFilterUrls, if_neg (by decide : ¬ (false = true)),
        List.filterMap_cons, List.map_cons] at ih ⊢
      cases hc : cacheGet db item.url with
      | none => simpa [hc] using ih
      | some c =>
          have := hitem c hc
          simpa [hc, this] using ih

/-! ## C10: the discovery cap -/

/-- Claim C10. `discoverDocumentUrls` returns at most 50 candidates for the
`suse` source and at most 30 for any other source, whatever the sitemap or
fallback produced; and when the sitemap fetch succeeds and the
blog/archive/search/tags/authors filter leaves at least one URL, the result
is exactly the first `limit` filtered entries in sitemap order. -/
theorem C10_discovery_cap (env : RunEnv) (source : SourceDef) :
    (discoverDocumentUrls env source).length ≤
      (if source.id = "suse" then 50 else 30) ∧
    (∀ entries, env.sitemap = some entries → sitemapCandidates entries ≠ [] →
      discoverDocumentUrls env source =
        (sitemapCandidates entries).take (if source.id = "suse" then 50 else 30)) := by
  constructor
  · have h := List.length_take_le (discoveryLimit source)
      (match env.sitemap with
       | some entries =>
           let fromSitemap := sitemapCandidates entries
           if fromSitemap.isEmpty then
             (getFallbackUrls source).map (fun u => ⟨u, none⟩)
           else fromSitemap
       | none => (getFallbackUrls source).map (fun u => ⟨u, none⟩))
    simp only [discoverDocumentUrls, discoveryLimit] at h ⊢
    exact h
  · intro entries hsm hne
    have hempty : (sitemapCandidates entries).isEmpty = false := by
      cases h : sitemapCandidates entries with
      | nil => exact absurd h hne
      | cons a t => rfl
    simp [discoverDocumentUrls, hsm, hempty, discoveryLimit]

/-- Witness for C10 at a concrete instance: a k3s run over a sitemap with a
docs page and a blog page; the cap is 30 and the result is the filtered
sitemap prefix. -/
theorem C10_discovery_cap_witness :
    (discoverDocumentUrls
        ⟨0, fun _ => .err, fun _ => .err, fun _ => none, fun _ => none,
         fun _ => false,
         some [⟨"https://docs.k3s.io/installation", none⟩,
               ⟨"https://docs.k3s.io/blog/post", none⟩]⟩
        ⟨"k3s", "https://docs.k3s.io"⟩).length ≤ 30 ∧
    discoverDocumentUrls
        ⟨0, fun _ => .err, fun _ => .err, fun _ => none, fun _ => none,
         fun _ => false,
         some [⟨"https://docs.k3s.io/installation", none⟩,
               ⟨"https://docs.k3s.io/blog/post", none⟩]⟩
        ⟨"k3s", "https://docs.k3s.io"⟩ =
      [⟨"https://docs.k3s.io/installation", none⟩] := by
  have h := C10_discovery_cap
    ⟨0, fun _ => .err, fun _ => .err, fun _ => none, fun _ => none,
     fun _ => false,
     some [⟨"https://docs.k3s.io/installation", none⟩,
           ⟨"https://docs.k3s.io/blog/post", none⟩]⟩
    ⟨"k3s", "https://docs.k3s.io"⟩
  refine ⟨by simpa using h.1, ?_⟩
  have h2 := h.2 _ rfl (by decide)
  simpa using h2

/-! ## C7: bounded exponential-backoff retry of the embedding call -/

/-- Claim C7. `getOrCreateEmbedding` retries a transient embedding failure
up to `retries = 3` attempts, sleeping 500 ms then 1000 ms (doubling)
between attempts: an oracle that fails transiently on attempts 0 and 1 and
succeeds on attempt 2 yields the embedding with exactly 3 attempts observed
and delays `[500, 1000]`, and the vector is cached; an oracle that always
fails transiently exhausts exactly 3 attempts, sleeps the same two doubling
delays, and throws. The run continues past such a resource: in a concrete
run whose `addDocument` fails for `u` after all retries and succeeds for
`v`, `v` is still indexed and the failure is confined to `u`. -/
theorem C7_embedding_retry (cache : List (String × List Int)) (key : String)
    (oracle : Nat → EmbedAttempt) (e : List Int)
    (hmiss : List.lookup key cache = none)
    (h0 : oracle 0 = .transientErr) (h1 : oracle 1 = .transientErr)
    (h2 : oracle 2 = .attemptOk e) :
    getOrCreateEmbedding cache key oracle 3 =
      (.embedOk e 3 [500, 1000], (key, e) :: cache) ∧
    (∀ oracle' : Nat → EmbedAttempt, (∀ n, oracle' n = .transientErr) →
      getOrCreateEmbedding cache key oracle' 3 = (.failedAll 3 [500, 1000], cache)) ∧
    (indexSource hashC envC7 k3sSrc false [] stZero).1 = ⟨1, 0, 1⟩ := by
  refine ⟨?_, ?_, by decide⟩
  · simp [getOrCreateEmbedding, hmiss, embedLoop, h0, h1, h2]
  · intro oracle' ho
    simp [getOrCreateEmbedding, hmiss, embedLoop, ho 0, ho 1, ho 2]

/-- Witness for C7 at a concrete oracle failing twice then succeeding. -/
theorem C7_embedding_retry_witness :
    getOrCreateEmbedding [] "k" (fun n => if n < 2 then .transientErr else .attemptOk [7]) 3 =
      (.embedOk [7] 3 [500, 1000], [("k", [7])]) := by
  have h := C7_embedding_retry [] "k"
    (fun n => if n < 2 then .transientErr else .attemptOk [7]) [7]
    rfl rfl rfl rfl
  exact h.1

/-! ## C8: the change-detection fallback chain -/

/-- Claim C8. For a cached record with no truthy validators, a successful
HEAD and a successful GET, `checkUrlForChanges` always reaches the full
body fetch and decides by the content hash: equal hash means unchanged
(method `content-hash`), different hash means changed with the old and new
hashes reported. Moreover the validator checks run first and in the order
ETag then Last-Modified: a matching ETag decides `unchanged` by itself
(whatever the Last-Modified headers would have said, and without any GET),
and when the ETag does not decide, a Last-Modified pair whose server time
is not newer decides `unchanged` before any GET is made. -/
theorem C8_hash_fallback (hash : String → String) (parseDate : String → Int)
    (env : RunEnv) (db : CacheDb) (url : String) (c : JsPage) (r g : HttpResp)
    (hc : cacheGet db url = some c)
    (hetag : strTruthy c.etag = false)
    (hlm : strTruthy c.lastModified = false)
    (hhead : env.head url = .ok r) (hr : r.status < 500)
    (hget : env.get url = .ok g) (hg : g.status < 500) :
    (checkUrlForChanges hash parseDate env db url =
      if c.contentHash == some (hash g.body) then .unchangedDoc .viaContentHash
      else .changedDoc c.contentHash (hash g.body) g.etag g.lastModified) ∧
    (∀ (db' : CacheDb) (url' : String) (c' : JsPage) (r' : HttpResp) (e : String),
      cacheGet db' url' = some c' → c'.etag = some e → e ≠ "" →
      env.head url' = .ok r' → r'.status < 500 → r'.etag = some e →
      checkUrlForChanges hash parseDate env db' url' = .unchangedDoc .viaEtag) ∧
    (∀ (db' : CacheDb) (url' : String) (c' : JsPage) (r' : HttpResp)
        (lm lm' : String),
      cacheGet db' url' = some c' → strTruthy c'.etag = false →
      c'.lastModified = some lm → lm ≠ "" →
      env.head url' = .ok r' → r'.status < 500 →
      r'.lastModified = some lm' → lm' ≠ "" →
      parseDate lm' ≤ parseDate lm →
      checkUrlForChanges hash parseDate env db' url' =
        .unchangedDoc .viaLastModified) := by
  refine ⟨?_, ?_, ?_⟩
  · simp [checkUrlForChanges, hc, hhead, hget, hr, hg, hetag, hlm]
  · intro db' url' c' r' e hc' hce hene hhead' hr' hre
    simp [checkUrlForChanges, hc', hhead', hr', hce, hre, strTruthy, hene]
  · intro db' url' c' r' lm lm' hc' hetag' hclm hlmne hhead' hr' hrlm hlmne' hle
    have hcond : (strTruthy c'.lastModified && strTruthy r'.lastModified &&
        decide (parseDate (r'.lastModified.getD "") ≤
                parseDate (c'.lastModified.getD ""))) = true := by
      rw [hclm, hrlm]
      simp [strTruthy, hlmne, hlmne', hle]
    simp only [checkUrlForChanges, hc', hhead', hr', hetag', hcond,
      Bool.false_and, Bool.and_false]
    simp [hr']

/-- Witness for C8: a record holding only a content hash, a 200 HEAD and a
200 GET whose body hashes to the cached value — the result is
`unchanged` by the `content-hash` method. -/
theorem C8_hash_fallback_witness :
    checkUrlForChanges hashC (fun _ => 0) envC8 dbC8 "u" =
      .unchangedDoc .viaContentHash := by
  have h := C8_hash_fallback hashC (fun _ => 0) envC8 dbC8 "u"
    (rowToJs "u" ⟨none, none, some "hB", some "p", some 5, true, some "k3s"⟩)
    ⟨200, none, none, ""⟩ ⟨200, none, none, "B"⟩
    (by decide) (by decide) (by decide) rfl (by decide) rfl (by decide)
  rw [h.1]
  decide

/-! ## C5: transport errors during fetch and change detection -/

/-- Counterexample to claim C5 as stated: the cached record for `u` carries
an ETag validator (`rowC5.etag = some "e"`), yet on a transport error
`fetchPageWithCache` does *not* treat the resource as unchanged and reuse a
cached body — it throws (a hard per-resource failure), because the fallback
is keyed on a cached `htmlPath`, which this record lacks, not on
validators. -/
theorem C5_validator_without_body_fails :
    dbLookup dbC5 "u" = some rowC5 ∧ strTruthy rowC5.etag = true ∧
    fetchPageWithCache hashC envC5 dbC5 stZero "u" = .error stZero := by
  refine ⟨rfl, by decide, rfl⟩

/-- Claim C5, amended. On a transport error (or any axios rejection) of the
GET, `fetchPageWithCache` falls back to "assume unchanged, reuse cached
body" exactly when the cached record has a truthy `htmlPath` whose file
loads — regardless of whether any validator is cached; in every other case
(no record, no stored body reference, or the body file fails to load) the
error propagates as a per-resource failure (`Promise.allSettled` confines
it to that resource, so the run continues). A transport error during
`checkUrlForChanges` yields the per-resource `status: 'error'` result for
every cached record, again regardless of cached validators. -/
theorem C5_error_fallback_amended (hash : String → String) (env : RunEnv)
    (db : CacheDb) (st : CacheStats) (url : String)
    (herr : env.get url = .err) :
    (∀ c html, cacheGet db url = some c → strTruthy c.htmlPath = true →
      env.loadHtml (c.htmlPath.getD "") = some html →
      fetchPageWithCache hash env db st url =
        .ok (⟨html, true, .errFallback⟩, db,
             { st with hitsCached := st.hitsCached + 1 })) ∧
    (cacheGet db url = none → fetchPageWithCache hash env db st url = .error st) ∧
    (∀ c, cacheGet db url = some c → strTruthy c.htmlPath = false →
      fetchPageWithCache hash env db st url = .error st) ∧
    (∀ c, cacheGet db url = some c → strTruthy c.htmlPath = true →
      env.loadHtml (c.htmlPath.getD "") = none →
      fetchPageWithCache hash env db st url =
        .error { st with hitsCached := st.hitsCached + 1 }) ∧
    (∀ (parseDate : String → Int) (url' : String) (c' : JsPage),
      cacheGet db url' = some c' → env.head url' = .err →
      checkUrlForChanges hash parseDate env db url' = .errorDoc) := by
  refine ⟨?_, ?_, ?_, ?_, ?_⟩
  · intro c html hc hht hload
    simp [fetchPageWithCache, herr, fetchFallback, hc, hht, hload]
  · intro hc
    simp [fetchPageWithCache, herr, fetchFallback, hc]
  · intro c hc hht
    simp [fetchPageWithCache, herr, fetchFallback, hc, hht]
  · intro c hc hht hload
    simp [fetchPageWithCache, herr, fetchFallback, hc, hht, hload]
  · intro parseDate url' c' hc' hh
    simp [checkUrlForChanges, hc', hh]

/-- Witness for the amended C5: the cached record for `u` has a stored body
that loads, so a transport error falls back to it with
`status: 'error-fallback'`. -/
theorem C5_error_fallback_amended_witness :
    fetchPageWithCache hashC
        ⟨1000, fun _ => .err, fun _ => .err, fun _ => none,
         fun p => if p = "p" then some "B" else none, fun _ => false, none⟩
        [("u", ⟨none, none, some "hB", some "p", some 5, true, some "k3s"⟩)]
        stZero "u" =
      .ok (⟨"B", true, .errFallback⟩,
           [("u", ⟨none, none, some "hB", some "p", some 5, true, some "k3s"⟩)],
           { stZero with hitsCached := 1 }) := by
  have h := C5_error_fallback_amended hashC
    ⟨1000, fun _ => .err, fun _ => .err, fun _ => none,
     fun p => if p = "p" then some "B" else none, fun _ => false, none⟩
    [("u", ⟨none, none, some "hB", some "p", some 5, true, some "k3s"⟩)]
    stZero "u" rfl
  exact h.1 (rowToJs "u" ⟨none, none, some "hB", some "p", some 5, true, some "k3s"⟩)
    "B" (by decide) (by decide) (by decide)

/-! ## C1: the indexed-record invariant -/

theorem strTruthy_some_of_ne (s : String) (h : s ≠ "") :
    strTruthy (some s) = true := by
  simp [strTruthy, h]

theorem hashC_ne_empty (s : String) : hashC s ≠ "" := by
  intro h
  have hlen : ("h" ++ s).length = ("" : String).length := congrArg String.length h
  rw [String.length_append] at hlen
  have h1 : ("h" : String).length = 1 := rfl
  have h2 : ("" : String).length = 0 := rfl
  omega

theorem RowInv_mkRow (d : JsPage) (hch : strTruthy d.contentHash = true)
    (hhp : d.indexed = true → strTruthy d.htmlPath = true) :
    RowInv (mkRow d) := by
  refine ⟨?_, ?_⟩
  · show strTruthy (strVal d.contentHash) = true
    rw [strTruthy_strVal]; exact hch
  · intro hi
    show strTruthy (strVal d.htmlPath) = true
    rw [strTruthy_strVal]
    exact hhp hi

theorem DbInv_cacheSet (db : CacheDb) (u : String) (d : JsPage)
    (hinv : DbInv db) (hrow : RowInv (mkRow d)) : DbInv (cacheSet db u d) := by
  intro v row hv
  by_cases h : v = u
  · subst h
    rw [dbLookup_cacheSet_self] at hv
    cases hv
    exact hrow
  · rw [dbLookup_cacheSet_ne db u v d h] at hv
    exact hinv v row hv

theorem cacheGet_inv (db : CacheDb) (u : String) (c : JsPage)
    (h : cacheGet db u = some c) :
    ∃ row, dbLookup db u = some row ∧ c = rowToJs u row := by
  cases hd : dbLookup db u with
  | none => simp [cacheGet, hd] at h
  | some row =>
      refine ⟨row, rfl, ?_⟩
      simp [cacheGet, hd] at h
      exact h.symm

/-- What `fetchPageWithCache` guarantees about the cache it returns: the
invariant is preserved, no key but `url` is touched, and the row now at
`url` (if any) has a truthy content hash and a truthy `html_path`, and is
marked indexed only if it already was before the call. -/
def FetchOkPost (db db2 : CacheDb) (url : String) : Prop :=
  DbInv db2 ∧
  (∀ v, v ≠ url → dbLookup db2 v = dbLookup db v) ∧
  (∀ row2, dbLookup db2 url = some row2 →
    strTruthy row2.content_hash = true ∧ strTruthy row2.html_path = true ∧
    (row2.indexed = true → IndexedAt db url))

theorem FetchOkPost_refl (db : CacheDb) (url : String) (hinv : DbInv db)
    (row : PageRow) (hd : dbLookup db url = some row)
    (hht : strTruthy row.html_path = true) : FetchOkPost db db url := by
  refine ⟨hinv, fun v _ => rfl, ?_⟩
  intro row2 h2
  rw [hd] at h2
  cases h2
  exact ⟨(hinv _ _ hd).1, hht, fun hi => ⟨row, hd, hi⟩⟩

theorem freshWrite_eq (hash : String → String) (env : RunEnv) (db : CacheDb)
    (url : String) (r : HttpResp) (st : CacheStats) :
    freshWrite hash env db url r st =
      .ok (⟨r.body, false, .fresh⟩,
           cacheSet db url
             ⟨url, r.etag, r.lastModified, some (hash r.body),
              env.saveHtml url, some env.now, none, false, none⟩,
           st) := rfl

theorem freshWrite_post (hash : String → String) (env : RunEnv)
    (db : CacheDb) (url : String) (r : HttpResp) (st : CacheStats)
    (hhash : ∀ s, hash s ≠ "")
    (hsave : ∀ u, strTruthy (env.saveHtml u) = true)
    (hinv : DbInv db) :
    ∀ fo db2 st2, freshWrite hash env db url r st = .ok (fo, db2, st2) →
      FetchOkPost db db2 url := by
  intro fo db2 st2 h
  rw [freshWrite_eq] at h
  simp only [Except.ok.injEq, Prod.mk.injEq] at h
  obtain ⟨-, hdb, -⟩ := h
  subst hdb
  refine ⟨DbInv_cacheSet db url _ hinv ?_, ?_, ?_⟩
  · exact RowInv_mkRow _ (strTruthy_some_of_ne _ (hhash r.body))
      (fun _ => hsave url)
  · intro v hv
    exact dbLookup_cacheSet_ne db url v _ hv
  · intro row2 h2
    rw [dbLookup_cacheSet_self] at h2
    cases h2
    refine ⟨?_, ?_, ?_⟩
    · show strTruthy (strVal (some (hash r.body))) = true
      rw [strTruthy_strVal]
      exact strTruthy_some_of_ne _ (hhash r.body)
    · show strTruthy (strVal (env.saveHtml url)) = true
      rw [strTruthy_strVal]
      exact hsave url
    · intro hcontra
      exact absurd hcontra Bool.false_ne_true

theorem fetchFresh_post (hash : String → String) (env : RunEnv)
    (db : CacheDb) (st : CacheStats) (url : String) (r : HttpResp)
    (hhash : ∀ s, hash s ≠ "")
    (hsave : ∀ u, strTruthy (env.saveHtml u) = true)
    (hinv : DbInv db) :
    ∀ fo db2 st2, fetchFresh hash env db st url r = .ok (fo, db2, st2) →
      FetchOkPost db db2 url := by
  intro fo db2 st2 h
  unfold fetchFresh at h
  cases hc : cacheGet db url with
  | none =>
      simp only [hc] at h
      exact freshWrite_post hash env db url r _ hhash hsave hinv _ _ _ h
  | some c =>
      simp only [hc] at h
      by_cases hm : ((c.contentHash == some (hash r.body)) && strTruthy c.htmlPath) = true
      · rw [if_pos hm] at h
        rw [Bool.and_eq_true] at hm
        obtain ⟨hmh, hmp⟩ := hm
        rw [beq_iff_eq] at hmh
        obtain ⟨row, hd, hcr⟩ := cacheGet_inv db url c hc
        cases hl : env.loadHtml (c.htmlPath.getD "") with
        | some html =>
            simp only [hl] at h
            simp only [Except.ok.injEq, Prod.mk.injEq] at h
            obtain ⟨-, hdb, -⟩ := h
            subst hdb
            have hch : strTruthy c.contentHash = true := by
              rw [hmh]
              exact strTruthy_some_of_ne _ (hhash r.body)
            refine ⟨DbInv_cacheSet db url _ hinv ?_, ?_, ?_⟩
            · exact RowInv_mkRow _ hch (fun _ => hmp)
            · intro v hv
              exact dbLookup_cacheSet_ne db url v _ hv
            · intro row2 h2
              rw [dbLookup_cacheSet_self] at h2
              cases h2
              refine ⟨?_, ?_, ?_⟩
              · show strTruthy (strVal c.contentHash) = true
                rw [strTruthy_strVal]; exact hch
              · show strTruthy (strVal c.htmlPath) = true
                rw [strTruthy_strVal]; exact hmp
              · intro hi
                have hri : row.indexed = true := by
                  have hidx : c.indexed = row.indexed := by rw [hcr]; rfl
                  rw [← hidx]
                  exact hi
                exact ⟨row, hd, hri⟩
        | none =>
            simp only [hl] at h
            exact freshWrite_post hash env db url r _ hhash hsave hinv _ _ _ h
      · rw [if_neg hm] at h
        exact freshWrite_post hash env db url r _ hhash hsave hinv _ _ _ h

theorem fetchFallback_post (env : RunEnv) (db : CacheDb) (st : CacheStats)
    (url : String) (hinv : DbInv db) :
    ∀ fo db2 st2, fetchFallback env db st url = .ok (fo, db2, st2) →
      FetchOkPost db db2 url := by
  intro fo db2 st2 h
  unfold fetchFallback at h
  cases hc : cacheGet db url with
  | none => simp [hc] at h
  | some c =>
      simp only [hc] at h
      by_cases hht : strTruthy c.htmlPath = true
      · rw [if_pos hht] at h
        cases hl : env.loadHtml (c.htmlPath.getD "") with
        | some html =>
            simp only [hl] at h
            simp only [Except.ok.injEq, Prod.mk.injEq] at h
            obtain ⟨-, hdb, -⟩ := h
            subst hdb
            obtain ⟨row, hd, hcr⟩ := cacheGet_inv db url c hc
            have hrow : strTruthy row.html_path = true := by
              have hcp : c.htmlPath = row.html_path := by rw [hcr]; rfl
              rw [← hcp]
              exact hht
            exact FetchOkPost_refl db url hinv row hd hrow
        | none => simp only [hl] at h; cases h
      · rw [if_neg hht] at h
        cases h

theorem fetchPageWithCache_post (hash : String → String) (env : RunEnv)
    (db : CacheDb) (st : CacheStats) (url : String)
    (hhash : ∀ s, hash s ≠ "")
    (hsave : ∀ u, strTruthy (env.saveHtml u) = true)
    (hinv : DbInv db) :
    ∀ fo db2 st2, fetchPageWithCache hash env db st url = .ok (fo, db2, st2) →
      FetchOkPost db db2 url := by
  intro fo db2 st2 h
  unfold fetchPageWithCache at h
  cases hg : env.get url with
  | err =>
      simp only [hg] at h
      exact fetchFallback_post env db st url hinv _ _ _ h
  | ok r =>
      simp only [hg] at h
      by_cases hv : ¬ (r.status < 400 ∨ r.status = 304)
      · rw [if_pos hv] at h
        exact fetchFallback_post env db st url hinv _ _ _ h
      · rw [if_neg hv] at h
        cases hc : cacheGet db url with
        | none =>
            simp only [hc] at h
            exact fetchFresh_post hash env db st url r hhash hsave hinv _ _ _ h
        | some c =>
            simp only [hc] at h
            by_cases h304 : r.status = 304 ∧ strTruthy c.htmlPath
            · rw [if_pos h304] at h
              cases hl : env.loadHtml (c.htmlPath.getD "") with
              | some html =>
                  simp only [hl] at h
                  simp only [Except.ok.injEq, Prod.mk.injEq] at h
                  obtain ⟨-, hdb, -⟩ := h
                  subst hdb
                  obtain ⟨row, hd, hcr⟩ := cacheGet_inv db url c hc
                  have hrow : strTruthy row.html_path = true := by
                    have hcp : c.htmlPath = row.html_path := by rw [hcr]; rfl
                    rw [← hcp]
                    exact h304.2
                  exact FetchOkPost_refl db url hinv row hd hrow
              | none =>
                  simp only [hl] at h
                  exact fetchFresh_post hash env db _ url r hhash hsave hinv _ _ _ h
            · rw [if_neg h304] at h
              exact fetchFresh_post hash env db st url r hhash hsave hinv _ _ _ h

theorem sourceFix_post (db : CacheDb) (url sid : String) (hinv : DbInv db) :
    DbInv (sourceFix db url sid) ∧
    (∀ v, v ≠ url → dbLookup (sourceFix db url sid) v = dbLookup db v) ∧
    (IndexedAt (sourceFix db url sid) url → IndexedAt db url) := by
  cases hc : cacheGet db url with
  | none =>
      have heq : sourceFix db url sid = db := by
        simp only [sourceFix, hc]
      rw [heq]
      exact ⟨hinv, fun v _ => rfl, fun h => h⟩
  | some c =>
      obtain ⟨row, hd, hcr⟩ := cacheGet_inv db url c hc
      by_cases hs : ¬ strTruthy c.source = true
      · have heq : sourceFix db url sid =
            cacheSet db url { c with source := some sid } := by
          simp only [sourceFix, hc]
          rw [if_pos hs]
        rw [heq]
        have hrinv := hinv url row hd
        have hcontent : strTruthy c.contentHash = true := by
          rw [hcr]; exact hrinv.1
        have hindexed : c.indexed = row.indexed := by rw [hcr]; rfl
        refine ⟨DbInv_cacheSet db url _ hinv ?_, ?_, ?_⟩
        · refine RowInv_mkRow _ hcontent ?_
          intro hi
          show strTruthy c.htmlPath = true
          rw [hcr]
          exact hrinv.2 (by rw [← hindexed]; exact hi)
        · intro v hv
          exact dbLookup_cacheSet_ne db url v _ hv
        · rintro ⟨row2, h2, hi2⟩
          rw [dbLookup_cacheSet_self] at h2
          cases h2
          refine ⟨row, hd, ?_⟩
          rw [← hindexed]
          exact hi2
      · have heq : sourceFix db url sid = db := by
          simp only [sourceFix, hc]
          rw [if_neg hs]
        rw [heq]
        exact ⟨hinv, fun v _ => rfl, fun h => h⟩

theorem processFetchPath_post (hash : String → String) (env : RunEnv)
    (source : SourceDef) (db : CacheDb) (st : CacheStats) (url : String)
    (hhash : ∀ s, hash s ≠ "")
    (hsave : ∀ u, strTruthy (env.saveHtml u) = true)
    (hinv : DbInv db) :
    DbInv (processFetchPath hash env source db st url).2.1 ∧
    (∀ v, v ≠ url →
      dbLookup (processFetchPath hash env source db st url).2.1 v =
        dbLookup db v) ∧
    (IndexedAt (processFetchPath hash env source db st url).2.1 url →
      IndexedAt db url ∨ env.embed url = true) := by
  cases hf : fetchPageWithCache hash env db st url with
  | error stE =>
      have heq : processFetchPath hash env source db st url =
          (.failedDoc, db, stE) := by
        simp only [processFetchPath, hf]
      rw [heq]
      exact ⟨hinv, fun v _ => rfl, fun h => Or.inl h⟩
  | ok res =>
      obtain ⟨fo, db2, st2⟩ := res
      have hpost := fetchPageWithCache_post hash env db st url hhash hsave hinv
        fo db2 st2 hf
      by_cases he : env.embed url = true
      · cases hc : cacheGet db2 url with
        | none =>
            have heq : processFetchPath hash env source db st url =
                (.indexedDoc, db2, st2) := by
              simp only [processFetchPath, hf]
              rw [if_pos he]
              simp only [hc]
            rw [heq]
            exact ⟨hpost.1, hpost.2.1, fun _ => Or.inr he⟩
        | some c2 =>
            have heq : processFetchPath hash env source db st url =
                (.indexedDoc,
                 cacheSet db2 url
                   { c2 with
                     indexed := true
                     source := some source.id
                     last_checked := some env.now },
                 st2) := by
              simp only [processFetchPath, hf]
              rw [if_pos he]
              simp only [hc]
            rw [heq]
            obtain ⟨row2, hd2, hcr2⟩ := cacheGet_inv db2 url c2 hc
            have hprops := hpost.2.2 row2 hd2
            have hch : strTruthy c2.contentHash = true := by
              rw [hcr2]; exact hprops.1
            have hhp : strTruthy c2.htmlPath = true := by
              rw [hcr2]; exact hprops.2.1
            refine ⟨DbInv_cacheSet db2 url _ hpost.1 ?_, ?_, fun _ => Or.inr he⟩
            · exact RowInv_mkRow _ hch (fun _ => hhp)
            · intro v hv
              rw [dbLookup_cacheSet_ne db2 url v _ hv]
              exact hpost.2.1 v hv
      · have heq : processFetchPath hash env source db st url =
            (.failedDoc, db2, st2) := by
          simp only [processFetchPath, hf]
          rw [if_neg he]
        rw [heq]
        refine ⟨hpost.1, hpost.2.1, ?_⟩
        rintro ⟨row2, hd2, hi2⟩
        exact Or.inl ((hpost.2.2 row2 hd2).2.2 hi2)

theorem processUrl_post (hash : String → String) (env : RunEnv)
    (source : SourceDef) (forceRefresh : Bool) (db : CacheDb)
    (st : CacheStats) (url : String)
    (hhash : ∀ s, hash s ≠ "")
    (hsave : ∀ u, strTruthy (env.saveHtml u) = true)
    (hinv : DbInv db) :
    DbInv (processUrl hash env source forceRefresh db st url).2.1 ∧
    (∀ v, v ≠ url →
      dbLookup (processUrl hash env source forceRefresh db st url).2.1 v =
        dbLookup db v) ∧
    (IndexedAt (processUrl hash env source forceRefresh db st url).2.1 url →
      IndexedAt db url ∨ env.embed url = true) := by
  have hfix := sourceFix_post db url source.id hinv
  have hchain : DbInv (processFetchPath hash env source
        (sourceFix db url source.id) st url).2.1 ∧
      (∀ v, v ≠ url →
        dbLookup (processFetchPath hash env source
          (sourceFix db url source.id) st url).2.1 v = dbLookup db v) ∧
      (IndexedAt (processFetchPath hash env source
          (sourceFix db url source.id) st url).2.1 url →
        IndexedAt db url ∨ env.embed url = true) := by
    have hp := processFetchPath_post hash env source
      (sourceFix db url source.id) st url hhash hsave hfix.1
    refine ⟨hp.1, ?_, ?_⟩
    · intro v hv
      rw [hp.2.1 v hv]
      exact hfix.2.1 v hv
    · intro hidx
      rcases hp.2.2 hidx with h1 | h2
      · exact Or.inl (hfix.2.2 h1)
      · exact Or.inr h2
  by_cases hsk : shouldSkipDocument db url forceRefresh = true
  · cases hh : env.head url with
    | err =>
        have heq : processUrl hash env source forceRefresh db st url =
            processFetchPath hash env source (sourceFix db url source.id) st url := by
          simp only [processUrl, hh, if_pos hsk]
        rw [heq]
        exact hchain
    | ok r =>
        by_cases hv2 : r.status = 304
        · have hv1 : r.status < 400 ∨ r.status = 304 := Or.inr hv2
          have heq : processUrl hash env source forceRefresh db st url =
              (.skippedDoc, sourceFix db url source.id,
               { st with skipped := st.skipped + 1 }) := by
            simp only [processUrl, hh, if_pos hsk, if_pos hv1, if_pos hv2]
          rw [heq]
          exact ⟨hfix.1, hfix.2.1, fun h => Or.inl (hfix.2.2 h)⟩
        · by_cases hv1 : r.status < 400 ∨ r.status = 304
          · have heq : processUrl hash env source forceRefresh db st url =
                processFetchPath hash env source (sourceFix db url source.id) st url := by
              simp only [processUrl, hh, if_pos hsk, if_pos hv1, if_neg hv2]
            rw [heq]
            exact hchain
          · have heq : processUrl hash env source forceRefresh db st url =
                processFetchPath hash env source (sourceFix db url source.id) st url := by
              simp only [processUrl, hh, if_pos hsk, if_neg hv1]
            rw [heq]
            exact hchain
  · have heq : processUrl hash env source forceRefresh db st url =
        processFetchPath hash env source db st url := by
      simp only [processUrl, if_neg hsk]
    rw [heq]
    exact processFetchPath_post hash env source db st url hhash hsave hinv
theorem processUrls_post (hash : String → String) (env : RunEnv)
    (source : SourceDef) (forceRefresh : Bool)
    (hhash : ∀ s, hash s ≠ "")
    (hsave : ∀ u, strTruthy (env.saveHtml u) = true) :
    ∀ (l : List String) (db : CacheDb) (st : CacheStats), DbInv db →
    DbInv (processUrls hash env source forceRefresh db st l).2.1 ∧
    (∀ u, IndexedAt (processUrls hash env source forceRefresh db st l).2.1 u →
      IndexedAt db u ∨ env.embed u = true) := by
  intro l
  induction l with
  | nil =>
      intro db st hinv
      exact ⟨hinv, fun u hu => Or.inl hu⟩
  | cons url rest ih =>
      intro db st hinv
      have hp := processUrl_post hash env source forceRefresh db st url
        hhash hsave hinv
      have hq := ih (processUrl hash env source forceRefresh db st url).2.1
        (processUrl hash env source forceRefresh db st url).2.2 hp.1
      have hdb : (processUrls hash env source forceRefresh db st (url :: rest)).2.1 =
          (processUrls hash env source forceRefresh
            (processUrl hash env source forceRefresh db st url).2.1
            (processUrl hash env source forceRefresh db st url).2.2 rest).2.1 := rfl
      rw [hdb]
      refine ⟨hq.1, ?_⟩
      intro u hu
      rcases hq.2 u hu with h1 | h2
      · by_cases huu : u = url
        · subst huu
          exact hp.2.2 h1
        · obtain ⟨row, hr, hi⟩ := h1
          rw [hp.2.1 u huu] at hr
          exact Or.inl ⟨row, hr, hi⟩
      · exact Or.inr h2

/-- Counterexample to claim C1 as stated: starting from an empty cache, one
indexing run in an environment where `saveHtmlToCache` fails (returns null)
but the fetch and the embed-and-store succeed leaves a reachable record
that is `indexed = true` with a non-null `contentHash` but a NULL
`html_path` (bodyRef) — the claimed `bodyRef` half of the invariant does
not hold. -/
theorem C1_indexed_record_with_null_bodyRef :
    dbLookup (indexSource hashC envC1 k3sSrc false [] stZero).2.1 "u" =
      some ⟨none, none, some "hB", none, some 1000, true, some "k3s"⟩ ∧
    ((⟨none, none, some "hB", none, some 1000, true, some "k3s"⟩ : PageRow).indexed
        = true) ∧
    ((⟨none, none, some "hB", none, some 1000, true, some "k3s"⟩ : PageRow).html_path
        = none) := by
  exact ⟨by decide, rfl, rfl⟩

/-- Claim C1, amended. Over any run of `indexSource`, provided every
`saveHtmlToCache` write succeeds (returns a non-empty path) and the hash
function yields non-empty digests (true of SHA-256 hex), the invariant is
preserved: every reachable row has a non-null, non-empty `contentHash`, and
every `indexed = true` row also has a non-null `html_path` (bodyRef);
moreover a URL that is indexed after the run either was indexed before it
or had a successful embed-and-store (`addDocument`) during it — `indexed`
is never set ahead of that success. Without the `saveHtmlToCache` proviso
the bodyRef half fails (see the counterexample): a fetch whose HTML write
fails stores `html_path = NULL`, and a subsequent successful embed still
marks the record indexed. -/
theorem C1_indexed_invariant (hash : String → String) (env : RunEnv)
    (source : SourceDef) (forceRefresh : Bool) (db : CacheDb) (st : CacheStats)
    (hhash : ∀ s, hash s ≠ "")
    (hsave : ∀ u, strTruthy (env.saveHtml u) = true)
    (hinv : DbInv db) :
    DbInv (indexSource hash env source forceRefresh db st).2.1 ∧
    (∀ u, IndexedAt (indexSource hash env source forceRefresh db st).2.1 u →
      IndexedAt db u ∨ env.embed u = true) :=
  processUrls_post hash env source forceRefresh hhash hsave
    (preFilterUrls db (discoverDocumentUrls env source) forceRefresh) db st hinv

/-- Witness for the amended C1 at a concrete run (environment `envC3`,
whose HTML writes succeed, over the empty cache). -/
theorem C1_indexed_invariant_witness :
    DbInv (indexSource hashC envC3 k3sSrc false [] stZero).2.1 ∧
    (∀ u, IndexedAt (indexSource hashC envC3 k3sSrc false [] stZero).2.1 u →
      IndexedAt [] u ∨ envC3.embed u = true) :=
  C1_indexed_invariant hashC envC3 k3sSrc false [] stZero
    hashC_ne_empty
    (fun _ => rfl)
    (fun url row h => by simp [dbLookup] at h)

/-! ## C3: idempotence of a second non-forced run -/

theorem shouldSkip_of_SkipOk (db : CacheDb) (u : String) (h : SkipOk db u) :
    shouldSkipDocument db u false = true := by
  obtain ⟨row, hd, hi, hch⟩ := h
  have hc : cacheGet db u = some (rowToJs u row) := cacheGet_eq_some db u row hd
  simp [shouldSkipDocument, hc, rowToJs, hi, hch]

theorem SkipOk_sourceFix (db : CacheDb) (u sid : String) :
    ∀ v, SkipOk db v → SkipOk (sourceFix db u sid) v := by
  intro v hv
  obtain ⟨row, hd, hi, hch⟩ := hv
  cases hc : cacheGet db u with
  | none =>
      have heq : sourceFix db u sid = db := by simp only [sourceFix, hc]
      rw [heq]
      exact ⟨row, hd, hi, hch⟩
  | some c =>
      by_cases hs : ¬ strTruthy c.source = true
      · have heq : sourceFix db u sid =
            cacheSet db u { c with source := some sid } := by
          simp only [sourceFix, hc]
          rw [if_pos hs]
        rw [heq]
        by_cases hvu : v = u
        · subst hvu
          obtain ⟨row', hd', hcr'⟩ := cacheGet_inv db v c hc
          rw [hd] at hd'
          cases hd'
          refine ⟨mkRow { c with source := some sid },
            dbLookup_cacheSet_self db v _, ?_, ?_⟩
          · show c.indexed = true
            rw [hcr']
            exact hi
          · show strTruthy (strVal c.contentHash) = true
            rw [strTruthy_strVal, hcr']
            exact hch
        · exact ⟨row, by rw [dbLookup_cacheSet_ne db u v _ hvu]; exact hd, hi, hch⟩
      · have heq : sourceFix db u sid = db := by
          simp only [sourceFix, hc]
          rw [if_neg hs]
        rw [heq]
        exact ⟨row, hd, hi, hch⟩

theorem processUrl_skip (hash : String → String) (env : RunEnv)
    (source : SourceDef) (db : CacheDb) (st : CacheStats) (u : String)
    (hs : SkipOk db u) (r : HttpResp)
    (hr : env.head u = .ok r) (h304 : r.status = 304) :
    processUrl hash env source false db st u =
      (.skippedDoc, sourceFix db u source.id,
       { st with skipped := st.skipped + 1 }) := by
  have hsk := shouldSkip_of_SkipOk db u hs
  have hv1 : r.status < 400 ∨ r.status = 304 := Or.inr h304
  simp only [processUrl, hr, if_pos hsk, if_pos hv1, if_pos h304]

theorem processUrls_cons_eq (hash : String → String) (env : RunEnv)
    (source : SourceDef) (fr : Bool) (db : CacheDb) (st : CacheStats)
    (u : String) (rest : List String) :
    processUrls hash env source fr db st (u :: rest) =
      (match (processUrl hash env source fr db st u).1 with
       | .indexedDoc =>
           { (processUrls hash env source fr
               (processUrl hash env source fr db st u).2.1
               (processUrl hash env source fr db st u).2.2 rest).1 with
             indexed := (processUrls hash env source fr
               (processUrl hash env source fr db st u).2.1
               (processUrl hash env source fr db st u).2.2 rest).1.indexed + 1 }
       | .skippedDoc =>
           { (processUrls hash env source fr
               (processUrl hash env source fr db st u).2.1
               (processUrl hash env source fr db st u).2.2 rest).1 with
             skipped := (processUrls hash env source fr
               (processUrl hash env source fr db st u).2.1
               (processUrl hash env source fr db st u).2.2 rest).1.skipped + 1 }
       | .failedDoc =>
           { (processUrls hash env source fr
               (processUrl hash env source fr db st u).2.1
               (processUrl hash env source fr db st u).2.2 rest).1 with
             failed := (processUrls hash env source fr
               (processUrl hash env source fr db st u).2.1
               (processUrl hash env source fr db st u).2.2 rest).1.failed + 1 },
       (processUrls hash env source fr
         (processUrl hash env source fr db st u).2.1
         (processUrl hash env source fr db st u).2.2 rest).2) := rfl

theorem processUrls_all_skip (hash : String → String) (env : RunEnv)
    (source : SourceDef) :
    ∀ (l : List String) (db : CacheDb) (st : CacheStats),
    (∀ u ∈ l, SkipOk db u ∧ ∃ r, env.head u = .ok r ∧ r.status = 304) →
    (processUrls hash env source false db st l).1 = ⟨0, l.length, 0⟩ := by
  intro l
  induction l with
  | nil => intro db st _; rfl
  | cons u rest ih =>
      intro db st h
      obtain ⟨hs, r, hr, h304⟩ := h u (List.mem_cons_self u rest)
      have hskip := processUrl_skip hash env source db st u hs r hr h304
      have hrest : ∀ v ∈ rest, SkipOk (sourceFix db u source.id) v ∧
          ∃ r', env.head v = .ok r' ∧ r'.status = 304 := by
        intro v hv
        obtain ⟨hsv, hhv⟩ := h v (List.mem_cons_of_mem u hv)
        exact ⟨SkipOk_sourceFix db u source.id v hsv, hhv⟩
      have hq := ih (sourceFix db u source.id)
        { st with skipped := st.skipped + 1 } hrest
      rw [processUrls_cons_eq, hskip]
      simp only []
      rw [hq]
      rfl

/-- Counterexample to claim C3 as stated: against a server that supports no
validators (every HEAD and GET answers a plain 200 and the body never
changes between the runs), the first run indexes the single candidate
(`indexedCount = 1`), and the *second* run — with no remote change —
re-embeds it and reports `indexedCount = 1` again, not 0: the skip
verification accepts only a HEAD answered 304, and the content-hash
short-circuit in `fetchPageWithCache` merely reuses the cached HTML, after
which `addDocument` is still called and the resource is counted as
indexed. -/
theorem C3_second_run_reindexes :
    (indexSource hashC envC3 k3sSrc false [] stZero).1.indexed = 1 ∧
    (indexSource hashC envC3 k3sSrc false
        (indexSource hashC envC3 k3sSrc false [] stZero).2.1
        (indexSource hashC envC3 k3sSrc false [] stZero).2.2).1.indexed = 1 := by
  decide

/-- Claim C3, amended. A second non-forced run re-indexes nothing provided
the server answers the conditional HEAD probe with 304 for every surviving
candidate: if every candidate URL of the run is already cached as indexed
with a content hash (the state a successful first pass leaves) and its HEAD
answers 304, the run indexes 0 and fails 0 resources and skips every
candidate. (The lastmod pre-filter never removes anything — claim C4 — and
a candidate whose HEAD is answered with anything but 304 is re-fetched and,
even when its body is unchanged, re-embedded and counted as indexed, as the
counterexample shows.) -/
theorem C3_second_run_amended (hash : String → String) (env : RunEnv)
    (source : SourceDef) (db : CacheDb) (st : CacheStats)
    (h : ∀ u ∈ preFilterUrls db (discoverDocumentUrls env source) false,
         SkipOk db u ∧ ∃ r, env.head u = .ok r ∧ r.status = 304) :
    (indexSource hash env source false db st).1 =
      ⟨0, (preFilterUrls db (discoverDocumentUrls env source) false).length, 0⟩ :=
  processUrls_all_skip hash env source
    (preFilterUrls db (discoverDocumentUrls env source) false) db st h

/-- Witness for the amended C3: one candidate, already indexed with a
content hash, whose HEAD answers 304 — the run skips it and indexes
nothing. -/
theorem C3_second_run_amended_witness :
    (indexSource hashC envC3w k3sSrc false dbC3w stZero).1 = ⟨0, 1, 0⟩ := by
  have hl : preFilterUrls dbC3w (discoverDocumentUrls envC3w k3sSrc) false =
      ["u"] := by decide
  have h := C3_second_run_amended hashC envC3w k3sSrc dbC3w stZero ?_
  · rw [h, hl]
    rfl
  · intro u hu
    rw [hl] at hu
    have hu' : u = "u" := by simpa using hu
    subst hu'
    exact ⟨⟨⟨none, none, some "hB", some "p", some 5, true, some "k3s"⟩,
      by decide, rfl, by decide⟩, ⟨304, none, none, ""⟩, rfl, rfl⟩

/-! ## C6: the run report -/

/-- Counterexample to claim C6: the report of `indexDocumentation` does not
distinguish resources that failed. A run over `{u, v}` in which `u` ends in
a hard per-resource failure and `v` indexes produces *exactly* the same
report object — `{success: true, documentsIndexed: 1, error: undefined,
cacheStats: …}` — as a clean run over `{w}` with no failure at all: the
claimed `errors[]` and `skippedCount`/`indexedCount` fields do not exist,
per-resource failures are only logged, and `success` stays true. -/
theorem C6_report_hides_failures :
    (indexDocumentation hashC envC6a "k3s" false [] stZero).1 =
      (indexDocumentation hashC envC6b "k3s" false [] stZero).1 ∧
    (indexSource hashC envC6a k3sSrc false [] stZero).1.failed = 1 ∧
    (indexSource hashC envC6b k3sSrc false [] stZero).1.failed = 0 := by
  decide

/-- Claim C6, amended. For a known source id, `indexDocumentation` returns
`{success, documentsIndexed, error, cacheStats}` — not
`{success, indexedCount, skippedCount, errors[]}` — where `success` is
`true` and `error` is absent *whatever* happened to individual resources
(per-resource failures are only logged inside `indexSource`),
`documentsIndexed` is the count of newly indexed resources, and the
skipped-as-unchanged count is observable only inside
`cacheStats.page.skipped`; an unknown source id yields
`{success: false, documentsIndexed: 0, error: 'Invalid source ID'}` with no
`cacheStats`. The report therefore separates newly-indexed from
skipped-as-unchanged, but not failed resources (see the
counterexample). -/
theorem C6_report_shape_amended (hash : String → String) (env : RunEnv)
    (sourceId : String) (forceRefresh : Bool) (db : CacheDb) (st : CacheStats)
    (source : SourceDef) (hsrc : sourcesMap sourceId = some source) :
    (indexDocumentation hash env sourceId forceRefresh db st).1 =
      ⟨true,
       (indexSource hash env source forceRefresh db (resetPageCacheStats st)).1.indexed,
       none,
       some ((indexSource hash env source forceRefresh db (resetPageCacheStats st)).2.2,
             (indexSource hash env source forceRefresh db (resetPageCacheStats st)).2.1.length)⟩ ∧
    (∀ sid, sourcesMap sid = none →
      (indexDocumentation hash env sid forceRefresh db st).1 =
        ⟨false, 0, some "Invalid source ID", none⟩) := by
  constructor
  · simp [indexDocumentation, hsrc]
  · intro sid hnone
    simp [indexDocumentation, hnone]

/-- Witness for the amended C6 at the concrete failing run `envC6a`. -/
theorem C6_report_shape_amended_witness :
    (indexDocumentation hashC envC6a "k3s" false [] stZero).1 =
      ⟨true,
       (indexSource hashC envC6a k3sSrc false [] (resetPageCacheStats stZero)).1.indexed,
       none,
       some ((indexSource hashC envC6a k3sSrc false [] (resetPageCacheStats stZero)).2.2,
             (indexSource hashC envC6a k3sSrc false [] (resetPageCacheStats stZero)).2.1.length)⟩ ∧
    (∀ sid, sourcesMap sid = none →
      (indexDocumentation hashC envC6a sid false [] stZero).1 =
        ⟨false, 0, some "Invalid source ID", none⟩) :=
  C6_report_shape_amended hashC envC6a "k3s" false [] stZero k3sSrc rfl

/-! ## C9: the write-back frame of `checkSourceForChanges` -/

theorem dbLookup_mem (db : CacheDb) (u : String) (row : PageRow)
    (h : dbLookup db u = some row) : (u, row) ∈ db := by
  induction db with
  | nil => simp [dbLookup] at h
  | cons p t ih =>
      obtain ⟨k, r⟩ := p
      by_cases hk : k = u
      · subst hk
        simp only [dbLookup, if_pos rfl] at h
        cases h
        exact List.mem_cons_self _ _
      · simp only [dbLookup, if_neg hk] at h
        exact List.mem_cons_of_mem _ (ih h)

/-- Every row of the table is in `set`-normal form as soon as each stored
pair is; lets a concrete table discharge `RowsNormal` by `decide`. -/
def RowsNormal (db : CacheDb) : Prop :=
  ∀ u row, dbLookup db u = some row → RowNormal row

theorem RowsNormal_of_rows (db : CacheDb)
    (h : ∀ p ∈ db, RowNormal p.2) : RowsNormal db := by
  intro u row hd
  exact h (u, row) (dbLookup_mem db u row hd)

theorem pages_urls_sublist (db : CacheDb) (source : String) :
    List.Sublist ((getPagesBySource db source).map (·.url)) (db.map Prod.fst) := by
  induction db with
  | nil => simp [getPagesBySource]
  | cons p t ih =>
      obtain ⟨k, r⟩ := p
      by_cases hs : r.source = some source
      · simp only [getPagesBySource, List.filterMap_cons, if_pos hs] at ih ⊢
        exact List.Sublist.cons₂ k ih
      · simp only [getPagesBySource, List.filterMap_cons, if_neg hs] at ih ⊢
        exact List.Sublist.cons k ih

theorem getPagesBySource_mem (db : CacheDb) (source u : String) (row : PageRow)
    (hd : dbLookup db u = some row) (hs : row.source = some source) :
    rowToJs u row ∈ getPagesBySource db source := by
  induction db with
  | nil => simp [dbLookup] at hd
  | cons p t ih =>
      obtain ⟨k, r⟩ := p
      by_cases hk : k = u
      · subst hk
        simp only [dbLookup, if_pos rfl] at hd
        cases hd
        simp only [getPagesBySource, List.filterMap_cons, if_pos hs]
        exact List.mem_cons_self _ _
      · simp only [dbLookup, if_neg hk] at hd
        have := ih hd
        simp only [getPagesBySource, List.filterMap_cons]
        by_cases hsr : r.source = some source
        · rw [if_pos hsr]
          exact List.mem_cons_of_mem _ this
        · rw [if_neg hsr]
          exact this

theorem getPagesBySource_not_mem (db : CacheDb) (source u : String)
    (row : PageRow) (hnd : (db.map Prod.fst).Nodup)
    (hd : dbLookup db u = some row) (hs : ¬ row.source = some source) :
    ∀ p ∈ getPagesBySource db source, p.url ≠ u := by
  induction db with
  | nil => simp [dbLookup] at hd
  | cons q t ih =>
      obtain ⟨k, r⟩ := q
      rw [List.map_cons, List.nodup_cons] at hnd
      by_cases hk : k = u
      · subst hk
        simp only [dbLookup, if_pos rfl] at hd
        cases hd
        simp only [getPagesBySource, List.filterMap_cons, if_neg hs]
        intro p hp
        have hurl : p.url ∈ (getPagesBySource t source).map (·.url) :=
          List.mem_map_of_mem _ hp
        have hsub := pages_urls_sublist t source
        have hkeys : p.url ∈ t.map Prod.fst := hsub.mem hurl
        intro hcontra
        rw [hcontra] at hkeys
        exact hnd.1 hkeys
      · simp only [dbLookup, if_neg hk] at hd
        have htail := ih hnd.2 hd
        simp only [getPagesBySource, List.filterMap_cons]
        by_cases hsr : r.source = some source
        · rw [if_pos hsr]
          intro p hp
          rcases List.mem_cons.mp hp with h1 | h2
          · rw [h1]
            exact hk
          · exact htail p h2
        · rw [if_neg hsr]
          exact htail

theorem writeBack_not_mem (now : Int) :
    ∀ (pages : List JsPage) (acc : CacheDb) (u : String),
    (∀ p ∈ pages, p.url ≠ u) →
    dbLookup (writeBack acc now pages) u = dbLookup acc u := by
  intro pages
  induction pages with
  | nil => intro acc u _; rfl
  | cons p t ih =>
      intro acc u h
      have hstep : writeBack acc now (p :: t) =
          writeBack (cacheSet acc p.url { p with lastChecked := some now }) now t := rfl
      rw [hstep, ih _ u (fun q hq => h q (List.mem_cons_of_mem p hq))]
      exact dbLookup_cacheSet_ne acc p.url u _
        (fun hc => h p (List.mem_cons_self p t) (hc.symm ▸ rfl))

theorem writeBack_mem (now : Int) :
    ∀ (pages : List JsPage) (acc : CacheDb) (page : JsPage),
    ((pages.map (·.url)).Nodup) → page ∈ pages →
    dbLookup (writeBack acc now pages) page.url =
      some (mkRow { page with lastChecked := some now }) := by
  intro pages
  induction pages with
  | nil => intro acc page _ h; simp at h
  | cons p t ih =>
      intro acc page hnd hmem
      rw [List.map_cons, List.nodup_cons] at hnd
      have hstep : writeBack acc now (p :: t) =
          writeBack (cacheSet acc p.url { p with lastChecked := some now }) now t := rfl
      rcases List.mem_cons.mp hmem with h1 | h2
      · subst h1
        rw [hstep]
        have hnm : ∀ q ∈ t, q.url ≠ page.url := by
          intro q hq hcontra
          exact hnd.1 (hcontra ▸ List.mem_map_of_mem (·.url) hq)
        rw [writeBack_not_mem now t _ page.url hnm]
        exact dbLookup_cacheSet_self _ _ _
      · rw [hstep]
        exact ih _ page hnd.2 h2

theorem mkRow_writeback_row (u : String) (row : PageRow) (now : Int)
    (hnorm : RowNormal row) (hnow : now ≠ 0) :
    mkRow { rowToJs u row with lastChecked := some now } =
      { row with last_checked := some now } := by
  obtain ⟨h1, h2, h3, h4, h5⟩ := hnorm
  simp [mkRow, rowToJs, intVal, hnow, h1, h2, h3, h4, h5]

/-- Claim C9 (code bug). `checkSourceForChanges` as written never reaches
its write-back: its first statement calls `this.cacheService.getBySource`,
a method the `CacheService` class does not define (the class defines
`getPagesBySource`), so every call throws a TypeError before any page is
selected. The claimed behavior is exactly what the code from the page
selection on does (here `checkSourceForChangesBody`, the body with the
missing method replaced by the `getPagesBySource` the store defines): after
it completes, every selected page — the per-URL check results, including
transport errors, play no part — has `lastChecked` set to the completion
time and every other column written back unchanged, while rows of other
sources are untouched. -/
theorem C9_checkSource_behavior (hash : String → String)
    (parseDate : String → Int) (env : RunEnv) (db : CacheDb) (source : String) :
    (checkSourceForChanges hash parseDate env db source =
      .error "TypeError: this.cacheService.getBySource is not a function") ∧
    ((db.map Prod.fst).Nodup → env.now ≠ 0 → RowsNormal db →
      ∀ u row, dbLookup db u = some row →
        (row.source = some source →
          dbLookup (checkSourceForChangesBody hash parseDate env db source).2 u =
            some { row with last_checked := some env.now }) ∧
        (¬ row.source = some source →
          dbLookup (checkSourceForChangesBody hash parseDate env db source).2 u =
            some row)) := by
  constructor
  · have hmem : "getBySource" ∉ cacheServiceMethodNames := by decide
    simp [checkSourceForChanges, hmem]
  · intro hnd hnow hnorm u row hd
    have hbody : (checkSourceForChangesBody hash parseDate env db source).2 =
        writeBack db env.now (getPagesBySource db source) := rfl
    constructor
    · intro hs
      have hpage := getPagesBySource_mem db source u row hd hs
      have hnd2 : ((getPagesBySource db source).map (·.url)).Nodup :=
        (pages_urls_sublist db source).nodup hnd
      have hw := writeBack_mem env.now (getPagesBySource db source) db
        (rowToJs u row) hnd2 hpage
      rw [mkRow_writeback_row u row env.now (hnorm u row hd) hnow] at hw
      rw [hbody]
      exact hw
    · intro hs
      have hnone := getPagesBySource_not_mem db source u row hnd hd hs
      rw [hbody, writeBack_not_mem env.now (getPagesBySource db source) db u hnone]
      exact hd

/-- Witness for C9 at a concrete table: the k3s row gets `last_checked`
updated to the run time (1000) with all other columns intact — even though
every individual check ended in a transport error — and the rancher row is
untouched; the entry point itself returns the TypeError. -/
theorem C9_checkSource_witness :
    checkSourceForChanges hashC (fun _ => 0) envC9 dbC9 "k3s" =
      .error "TypeError: this.cacheService.getBySource is not a function" ∧
    dbLookup (checkSourceForChangesBody hashC (fun _ => 0) envC9 dbC9 "k3s").2 "u" =
      some ⟨some "e", none, some "hB", some "p", some 1000, true, some "k3s"⟩ ∧
    dbLookup (checkSourceForChangesBody hashC (fun _ => 0) envC9 dbC9 "k3s").2 "v" =
      some ⟨none, none, some "hC", some "q", some 7, false, some "rancher"⟩ := by
  have h := C9_checkSource_behavior hashC (fun _ => 0) envC9 dbC9 "k3s"
  have hnorm : RowsNormal dbC9 := RowsNormal_of_rows dbC9 (by decide)
  refine ⟨h.1, ?_, ?_⟩
  · exact (h.2 (by decide) (by decide) hnorm "u"
      ⟨some "e", none, some "hB", some "p", some 5, true, some "k3s"⟩
      (by decide)).1 rfl
  · exact (h.2 (by decide) (by decide) hnorm "v"
      ⟨none, none, some "hC", some "q", some 7, false, some "rancher"⟩
      (by decide)).2 (by decide)

end DocsNav
